import Mathlib

/-!
Verification of the synchronization and backup orchestration engine of the
Telegram-messages-to-Notion repository.  The definitions below are shallow
embeddings of the Python source files `backup_database.py`, `notion_sync.py`,
`models.py`, `storage.py` and `telegram_bot.py`.  External services (the
Notion workspace client, the object-storage client, the database driver) are
modelled as explicit environments whose fields record the outcome of each
external call the code makes.
-/

namespace TGNotion

/-! ### Python truthiness helpers

Python treats `None` and the empty string as falsy; the code under study
branches on `if not x:` for optional strings in several places. -/

/-- Truthiness of an optional string, as Python evaluates `if x:` for a value
that is either `None` or a `str`. -/
def pyTruthyStr (o : Option String) : Bool :=
  match o with
  | none => false
  | some s => !s.isEmpty

/-- Rendering of a possibly-`None` value inside a Python f-string. -/
def pyRenderOpt (o : Option String) : String :=
  match o with
  | none => "None"
  | some s => s

/-! ### Backup engine: `backup_database.py`

Retention configuration (lines 22-24 of `backup_database.py`). -/

def DAILY_RETENTION : Nat := 7
def WEEKLY_RETENTION : Nat := 4
def MONTHLY_RETENTION : Nat := 3

/-- Substring test on character lists: Python's `pat in s`. -/
def charsContain (pat : List Char) : List Char → Bool
  | [] => pat.isEmpty
  | c :: rest => pat.isPrefixOf (c :: rest) || charsContain pat rest

/-- Python's substring containment `pat in s` for strings. -/
def strContains (s pat : String) : Bool :=
  charsContain pat.data s.data

/-- Sort a list of strings in descending lexicographic order, the effect of
Python's `list.sort(reverse=True)` on a list of distinct strings. -/
def sortDesc (l : List String) : List String :=
  l.insertionSort (fun a b => b ≤ a)

/-- The key-pattern test `"_daily." in b` used at line 189. -/
def isDailyKey (k : String) : Bool := strContains k ("_daily.")

/-- The key-pattern test `"_weekly." in b` used at line 190. -/
def isWeeklyKey (k : String) : Bool := strContains k ("_weekly.")

/-- The key-pattern test `"_monthly." in b` used at line 191. -/
def isMonthlyKey (k : String) : Bool := strContains k ("_monthly.")

/-- `list_existing_backups` (lines 158-170): list all keys in object storage
and keep those starting with `backups/backup_`.  The storage listing is
passed in as the list of all stored keys. -/
def list_existing_backups (stored : List String) : List String :=
  stored.filter (fun k => ("backups/backup_").data.isPrefixOf k.data)

/-- The `to_delete` list computed by `apply_retention_policy`
(lines 183-211): partition the listed backups by tier substring, sort each
partition descending, and collect everything beyond the per-tier retention
count. -/
def retentionToDelete (allBackups : List String) : List String :=
  let daily_backups := sortDesc (allBackups.filter isDailyKey)
  let weekly_backups := sortDesc (allBackups.filter isWeeklyKey)
  let monthly_backups := sortDesc (allBackups.filter isMonthlyKey)
  (if DAILY_RETENTION < daily_backups.length then
    daily_backups.drop DAILY_RETENTION else []) ++
  (if WEEKLY_RETENTION < weekly_backups.length then
    weekly_backups.drop WEEKLY_RETENTION else []) ++
  (if MONTHLY_RETENTION < monthly_backups.length then
    monthly_backups.drop MONTHLY_RETENTION else [])

/-- `apply_retention_policy` (lines 172-224) returns the keys it deletes.
If the storage client is unavailable the function returns early and deletes
nothing (lines 179-181). -/
def apply_retention_policy (storageAvailable : Bool) (stored : List String) :
    List String :=
  if !storageAvailable then []
  else retentionToDelete (list_existing_backups stored)

/-- The storage keys remaining after the retention pass deleted its list. -/
def keptAfterRetention (storageAvailable : Bool) (stored : List String) :
    List String :=
  stored.filter
    (fun k => !(decide (k ∈ apply_retention_policy storageAvailable stored)))

/-- `determine_backup_type` (lines 251-265): monthly on the 1st of the month,
weekly on Sundays (`weekday() == 6`), daily otherwise. -/
def determine_backup_type (day weekday : Nat) : String :=
  if day = 1 then "monthly"
  else if weekday = 6 then "weekly"
  else "daily"

/-- `get_backup_filename` (lines 130-137). -/
def get_backup_filename (dateStr backupType : String) : String :=
  "backup_" ++ dateStr ++ "_" ++ backupType ++ ".sql.gz"

/-- Environment of one backup run: the outcome of every external call made by
`perform_backup` and its steps.  Bytes are modelled as lists of byte values;
`none` models a raised exception. -/
structure BackupEnv where
  storageAvailable : Bool
  dumpData : Option (List Nat)
  uploadSucceeds : Bool
  downloadResult : Option (List Nat)
  day : Nat
  weekday : Nat
  dateStr : String

/-- `save_backup_to_object_storage` (lines 139-156): fails when the storage
client is unavailable, otherwise reports whether the upload call raised. -/
def save_backup_to_object_storage (env : BackupEnv) : Bool :=
  if !env.storageAvailable then false
  else env.uploadSucceeds

/-- `verify_backup` (lines 226-249): download the named object and require at
least 1000 bytes; an unavailable client or a raised download fails. -/
def verify_backup (env : BackupEnv) : Bool :=
  if !env.storageAvailable then false
  else
    match env.downloadResult with
    | none => false
    | some backup_data =>
      if backup_data.length < 1000 then false else true

/-- Observable outcome of one `perform_backup` run: the returned boolean plus
which steps were reached and which keys the retention pass deleted. -/
structure BackupResult where
  success : Bool
  uploadAttempted : Bool
  verifyAttempted : Bool
  retentionRan : Bool
  deleted : List String
deriving DecidableEq, Repr

/-- `perform_backup` (lines 267-301): determine tier, dump, upload, verify,
and only then apply retention; each failing step returns `False` at once.
`if not backup_data:` is falsy both for `None` and for an empty byte string. -/
def perform_backup (env : BackupEnv) (stored : List String) : BackupResult :=
  let backup_type := determine_backup_type env.day env.weekday
  let filename := get_backup_filename env.dateStr backup_type
  match env.dumpData with
  | none => ⟨false, false, false, false, []⟩
  | some backup_data =>
    if backup_data.isEmpty then ⟨false, false, false, false, []⟩
    else
      let saved := save_backup_to_object_storage env
      if !saved then ⟨false, true, false, false, []⟩
      else
        let _backup_name := "backups/" ++ filename
        let verified := verify_backup env
        if !verified then ⟨false, true, true, false, []⟩
        else
          ⟨true, true, true, true,
            apply_retention_policy env.storageAvailable stored⟩

/-! ### The SQL dump: `create_db_backup` (lines 36-128)

The dump iterates over all tables of the `public` schema and, for each one,
runs `cursor.execute("SELECT * FROM %s", (table_name,))`.  psycopg2 adapts a
Python string parameter by quoting it as an SQL string literal, so the
statement sent to PostgreSQL is `SELECT * FROM 'tablename'`, which is a
syntax error: the FROM clause requires an identifier, not a literal.  The
per-table `except` (lines 111-113) then writes an error comment instead of
any INSERT statements. -/

/-- An SQL value, as far as the dump serializer distinguishes them. -/
inductive SqlValue where
  | null
  | int (n : Int)
  | str (s : String)
deriving DecidableEq, Repr

/-- A table of the relational store: name, column names, rows. -/
structure DbTable where
  name : String
  columns : List String
  rows : List (List SqlValue)
deriving DecidableEq, Repr

/-- The single-quote character. -/
def sq : Char := Char.ofNat 39

/-- Python's `s.replace("'", "''")`, the quote escaping used in the dump. -/
def escapeQuotes (s : String) : String :=
  String.mk (s.data.flatMap (fun c => if c = sq then [sq, sq] else [c]))

/-- psycopg2 adaptation of a Python `str` query parameter: the value is
escaped and wrapped in single quotes, producing an SQL string literal. -/
def adaptStringParam (s : String) : String :=
  String.mk (sq :: (escapeQuotes s).data ++ [sq])

/-- Execution of `SELECT * FROM <tok>` against the store.  A token opening
with a quote is a string literal (as produced by parameter adaptation) and
is rejected by the SQL dialect with a syntax error; an identifier resolves
to the named table. -/
def execSelectAllFrom (tables : List DbTable) (tok : String) :
    Except String (List String × List (List SqlValue)) :=
  if tok.data.head? = some sq then
    .error ("syntax error at or near " ++ tok)
  else
    match tables.find? (fun t => t.name == tok) with
    | some t => .ok (t.columns, t.rows)
    | none => .error ("relation " ++ tok ++ " does not exist")

/-- Serialization of one value inside an INSERT statement (lines 89-105). -/
def sqlLiteral : SqlValue → String
  | .null => "NULL"
  | .int n => toString n
  | .str s => String.mk (sq :: (escapeQuotes s).data ++ [sq])

/-- Comma-separated join. -/
def joinComma : List String → String
  | [] => ""
  | [s] => s
  | s :: rest => s ++ ", " ++ joinComma rest

/-- One generated INSERT statement (lines 87-108). -/
def insertStatement (tname : String) (cols : List String)
    (row : List SqlValue) : String :=
  "INSERT INTO " ++ tname ++ " (" ++
    joinComma (cols.map (fun c => "\"" ++ c ++ "\"")) ++ ") VALUES (" ++
    joinComma (row.map sqlLiteral) ++ ");"

/-- The dump lines produced for one table (lines 71-113): the table header
comment, then either the INSERT statements or the error comment written when
the data fetch raised. -/
def tableDumpLines (tables : List DbTable) (tname : String) : List String :=
  ("-- Table: " ++ tname) ::
  (match execSelectAllFrom tables (adaptStringParam tname) with
  | .error e => ["-- Error fetching data: " ++ e, ""]
  | .ok (cols, rows) =>
    if rows.isEmpty then []
    else ("-- Data for " ++ tname) ::
      (rows.map (insertStatement tname cols) ++ [""]))

/-- `create_db_backup` (lines 36-128), as the list of lines of the SQL dump
before compression; the three header comment lines are abstracted by fixed
strings since the database name and wall-clock date do not matter here. -/
def create_db_backup (tables : List DbTable) : List String :=
  ["-- Database: db", "-- Backup Date: now",
   "-- Backup Method: plain SQL export", ""] ++
  (tables.map (fun t => t.name)).flatMap (tableDumpLines tables)

/-- Whether a dump line is an INSERT statement. -/
def isInsertLine (l : String) : Bool :=
  ("INSERT INTO ").data.isPrefixOf l.data

/-! ### Dates, timestamps, and the message row: `models.py`

Python `datetime` values are modelled by their calendar and clock fields;
`.date()` projects the calendar fields, and ordering is lexicographic on
(date, time of day), matching `datetime` comparison. -/

structure PyDate where
  year : Nat
  month : Nat
  day : Nat
deriving DecidableEq, Repr

structure PyDateTime where
  date : PyDate
  hour : Nat
  minute : Nat
  second : Nat
deriving DecidableEq, Repr

/-- Injective key realizing the calendar order on in-range dates. -/
def PyDate.key (d : PyDate) : Nat :=
  (d.year * 13 + d.month) * 32 + d.day

/-- Injective key realizing `datetime` comparison on in-range values. -/
def PyDateTime.key (t : PyDateTime) : Nat :=
  ((t.date.key * 24 + t.hour) * 60 + t.minute) * 60 + t.second

/-- Two-digit zero padding, as `strftime` renders clock fields. -/
def pad2 (n : Nat) : String :=
  if n < 10 then "0" ++ toString n else toString n

/-- `timestamp.strftime("%H:%M:%S")` (line 105 of `notion_sync.py`). -/
def fmtTime (t : PyDateTime) : String :=
  pad2 t.hour ++ ":" ++ pad2 t.minute ++ ":" ++ pad2 t.second

/-- `strftime("%B")`: the English month name. -/
def monthName : Nat → String
  | 1 => "January"
  | 2 => "February"
  | 3 => "March"
  | 4 => "April"
  | 5 => "May"
  | 6 => "June"
  | 7 => "July"
  | 8 => "August"
  | 9 => "September"
  | 10 => "October"
  | 11 => "November"
  | 12 => "December"
  | _ => ""

/-- The `TelegramMessage` row (`models.py` lines 12-54), restricted to the
fields the sync engine and formatter read or write.  Nullable columns are
`Option`; `text` is nullable in the schema although the webhook ingestion
always stores a string (empty for messages without text). -/
structure Message where
  id : Nat
  text : Option String
  timestamp : PyDateTime
  username : Option String
  first_name : Option String
  last_name : Option String
  media_type : Option String
  media_stored_path : Option String
  media_filename : Option String
  synced : Bool
  notion_page_id : Option String
deriving DecidableEq, Repr

/-- `TelegramMessage.has_media` (`models.py` lines 52-54): truthiness of both
`media_type` and `media_stored_path`. -/
def Message.has_media (m : Message) : Bool :=
  pyTruthyStr m.media_type && pyTruthyStr m.media_stored_path

/-- `TelegramMessage.get_media_url` (`models.py` lines 44-50): resolve the
stored path through `storage.get_file_url`, passed in as `fileUrl` since it
depends on the storage configuration; `None` when the path is falsy. -/
def Message.get_media_url (fileUrl : String → Option String) (m : Message) :
    Option String :=
  if pyTruthyStr m.media_stored_path then fileUrl (m.media_stored_path.getD "")
  else none

/-- The calendar date a message is grouped under: `message.timestamp.date()`
(line 336 of `notion_sync.py`). -/
def Message.dateKey (m : Message) : PyDate := m.timestamp.date

/-- The display name computed at line 106 of `notion_sync.py`:
`message.username if message.username else f"{first_name} {last_name}".strip()`. -/
def displayName (m : Message) : String :=
  if pyTruthyStr m.username then m.username.getD ""
  else (pyRenderOpt m.first_name ++ " " ++ pyRenderOpt m.last_name).trim

/-! ### URL detection: the regex `(https?://[^\s]+)`

`format_message_for_notion` scans message text with `re.search` and
`re.split` over the pattern `(https?://[^\s]+)`.  A match is a scheme token
(`https://` preferred over `http://` at the same position) followed by a
maximal nonempty run of non-whitespace characters; `re.split` with one
capturing group returns the non-matched pieces interleaved with the matched
URLs, starting and ending with a (possibly empty) non-matched piece. -/

/-- Whitespace as the regex class `\s` sees it on ASCII text. -/
def isPySpace (c : Char) : Bool :=
  c = ' ' || c = '\t' || c = '\n' || c = '\x0d' || c = '\x0b' || c = '\x0c'

def httpsPat : List Char := ['h', 't', 't', 'p', 's', ':', '/', '/']
def httpPat : List Char := ['h', 't', 't', 'p', ':', '/', '/']

/-- Length of the scheme `https?://` matched at the head of the input, if
any; the optional `s` is greedy, so `https://` wins where both fit. -/
def matchScheme (cs : List Char) : Option Nat :=
  if httpsPat.isPrefixOf cs then some 8
  else if httpPat.isPrefixOf cs then some 7
  else none

/-- Attempt of the whole pattern at the head of the input: scheme followed by
at least one non-whitespace character, taken greedily.  Returns the matched
characters and the remainder. -/
def matchUrlAt (cs : List Char) : Option (List Char × List Char) :=
  match matchScheme cs with
  | none => none
  | some k =>
    let run := (cs.drop k).takeWhile (fun c => !isPySpace c)
    if run.isEmpty then none
    else some (cs.take (k + run.length), cs.drop (k + run.length))

theorem matchScheme_length {cs : List Char} {k : Nat}
    (h : matchScheme cs = some k) : 0 < k ∧ k ≤ cs.length := by
  unfold matchScheme at h
  split at h
  · rename_i hp
    cases h
    refine ⟨by norm_num, ?_⟩
    have := (List.isPrefixOf_iff_prefix.mp hp).length_le
    simpa [httpsPat] using this
  · split at h
    · rename_i hp
      cases h
      refine ⟨by norm_num, ?_⟩
      have := (List.isPrefixOf_iff_prefix.mp hp).length_le
      simpa [httpPat] using this
    · cases h

theorem matchUrlAt_spec {cs url rest : List Char}
    (h : matchUrlAt cs = some (url, rest)) :
    url ++ rest = cs ∧ rest.length < cs.length := by
  unfold matchUrlAt at h
  cases hs : matchScheme cs with
  | none => rw [hs] at h; cases h
  | some k =>
    rw [hs] at h
    simp only at h
    split at h
    · cases h
    · rename_i hrun
      obtain ⟨hk, hkle⟩ := matchScheme_length hs
      cases h
      constructor
      · exact List.take_append_drop _ cs
      · have hpos : 0 < cs.length := lt_of_lt_of_le hk hkle
        have : cs.length - (k + ((cs.drop k).takeWhile
            (fun c => !isPySpace c)).length) < cs.length := by
          apply Nat.sub_lt hpos
          exact Nat.lt_of_lt_of_le hk (Nat.le_add_right _ _)
        simpa using this

/-- `re.split(r'(https?://[^\s]+)', text)`: scan left to right for leftmost
non-overlapping matches.  `pending` holds the characters of the current
non-matched piece, most recent first.  Pieces are tagged `false`; captured
URLs are tagged `true`.  The recursion is driven by a character budget:
every step consumes at least one character of `cs` (a match consumes its
whole span, `matchUrlAt_spec`), so a budget of `cs.length` — which
`pySplitUrls` supplies — never runs out; the zero-budget fallback emits the
remaining characters as one non-matched piece. -/
def pySplitUrlsFuel : Nat → List Char → List Char → List (Bool × String)
  | _, [], pending => [(false, String.mk pending.reverse)]
  | 0, c :: rest, pending =>
    [(false, String.mk (pending.reverse ++ c :: rest))]
  | fuel + 1, c :: rest, pending =>
    match matchUrlAt (c :: rest) with
    | some (url, rest') =>
      (false, String.mk pending.reverse) :: (true, String.mk url) ::
        pySplitUrlsFuel fuel rest' []
    | none => pySplitUrlsFuel fuel rest (c :: pending)

/-- The split of the whole text, with an adequate budget. -/
def pySplitUrls (cs pending : List Char) : List (Bool × String) :=
  pySplitUrlsFuel cs.length cs pending

/-- Any budget of at least `cs.length` gives the same split: the zero-budget
fallback of `pySplitUrlsFuel` is never reached. -/
theorem pySplitUrlsFuel_irrel :
    ∀ (fuel₁ fuel₂ : Nat) (cs pending : List Char),
      cs.length ≤ fuel₁ → cs.length ≤ fuel₂ →
      pySplitUrlsFuel fuel₁ cs pending = pySplitUrlsFuel fuel₂ cs pending := by
  intro fuel₁
  induction fuel₁ with
  | zero =>
    intro fuel₂ cs pending h1 _
    have hcs : cs = [] := List.length_eq_zero.mp (Nat.le_zero.mp h1)
    subst hcs
    cases fuel₂ <;> rfl
  | succ f1 ih =>
    intro fuel₂ cs pending h1 h2
    cases cs with
    | nil => cases fuel₂ <;> rfl
    | cons c rest =>
      cases fuel₂ with
      | zero =>
        rw [List.length_cons] at h2
        cases h2
      | succ f2 =>
        rw [pySplitUrlsFuel, pySplitUrlsFuel]
        cases hm : matchUrlAt (c :: rest) with
        | none =>
          dsimp only
          rw [List.length_cons] at h1 h2
          exact ih f2 rest (c :: pending) (Nat.le_of_succ_le_succ h1)
            (Nat.le_of_succ_le_succ h2)
        | some pr =>
          obtain ⟨url, rest'⟩ := pr
          dsimp only
          have hlt := (matchUrlAt_spec hm).2
          have hr1 : rest'.length ≤ f1 :=
            Nat.le_of_lt_succ (Nat.lt_of_lt_of_le hlt h1)
          have hr2 : rest'.length ≤ f2 :=
            Nat.le_of_lt_succ (Nat.lt_of_lt_of_le hlt h2)
          rw [ih f2 rest' [] hr1 hr2]

/-- `re.search(r'(https?://[^\s]+)', text)`: does any position match? -/
def hasUrlAux : List Char → Bool
  | [] => false
  | c :: rest => (matchUrlAt (c :: rest)).isSome || hasUrlAux rest

/-! ### Notion content blocks and the message formatter -/

/-- One entry of a `rich_text` array: either a bare text dict
`{"type": "text", "text": {"content": c}}` or one carrying a link
`{"type": "text", "text": {"content": c, "link": {"url": u}}}` (the url can
itself be `None` when a media path failed to resolve). -/
inductive RichText where
  | plain (content : String)
  | link (content : String) (url : Option String)
deriving DecidableEq, Repr

/-- The content string of a rich-text span. -/
def RichText.contentOf : RichText → String
  | .plain c => c
  | .link c _ => c

/-- Whether a span carries a link key. -/
def RichText.isLink : RichText → Bool
  | .plain _ => false
  | .link _ _ => true

/-- A Notion content block as the formatter builds them. -/
inductive Block where
  | paragraph (richText : List RichText)
  | image (url : Option String)
deriving DecidableEq, Repr

/-- `format_message_for_notion` returns either a single block dict or a list
of blocks (image messages); the caller flattens both shapes (lines 447-451). -/
inductive FormatResult where
  | single (b : Block)
  | multiple (bs : List Block)
deriving DecidableEq, Repr

def flattenResult : FormatResult → List Block
  | .single b => [b]
  | .multiple bs => bs

/-- The span list built from the split pieces (lines 236-250): non-matched
pieces become bare spans, skipped when empty; captured URLs become spans
whose content and link url are both the match. -/
def emitParts : List (Bool × String) → List RichText
  | [] => []
  | (false, s) :: rest =>
    if s.isEmpty then emitParts rest else .plain s :: emitParts rest
  | (true, u) :: rest => .link u (some u) :: emitParts rest

/-- The spans produced for a text that contains a URL. -/
def urlSpans (t : String) : List RichText :=
  emitParts (pySplitUrls t.data [])

/-- Lines 231-256: if the text matches the URL pattern, split it into
alternating spans; otherwise a single bare span holding the whole text. -/
def textSpans (t : String) : List RichText :=
  if hasUrlAux t.data then urlSpans t
  else [.plain t]

/-- The bold timestamp and sender header of the regular-text path
(line 217). -/
def regularHeader (m : Message) : String :=
  "**" ++ fmtTime m.timestamp ++ "** - **" ++ displayName m ++ "**: "

/-- The regular-text path of the formatter (lines 215-264): header span, then
the URL-split spans of the text.  `re.search(pattern, None)` raises
`TypeError`, which the sync loop does not catch locally. -/
def regularFormat (m : Message) : Except String FormatResult :=
  match m.text with
  | none => .error ("TypeError: expected string or bytes-like object")
  | some t =>
    .ok (.single (.paragraph (.plain (regularHeader m) :: textSpans t)))

/-- `format_message_for_notion` (lines 101-264).  Image messages yield a
caption paragraph plus an image block; document/video/audio messages yield a
single paragraph with a file link; everything else falls through to the
regular-text path, including media of unrecognized kind. -/
def format_message_for_notion (fileUrl : String → Option String)
    (m : Message) : Except String FormatResult :=
  let timestamp := fmtTime m.timestamp
  let username := displayName m
  if m.has_media then
    let media_url := m.get_media_url fileUrl
    match m.media_type with
    | some mt =>
      if mt = "image" then
        let caption_blocks : List RichText :=
          .plain ("**" ++ timestamp ++ "** - **" ++ username ++
            "** shared an image: ") ::
          (match m.text with
          | some t => if t.isEmpty then [] else textSpans t
          | none => [])
        .ok (.multiple [.paragraph caption_blocks, .image media_url])
      else if mt = "document" || mt = "video" || mt = "audio" then
        let header_text :=
          "**" ++ timestamp ++ "** - **" ++ username ++ "** shared a " ++
            mt ++ ": "
        let fname :=
          if pyTruthyStr m.media_filename then m.media_filename.getD ""
          else mt ++ " file"
        let media_blocks : List RichText :=
          [.plain header_text, .link fname media_url] ++
          (match m.text with
          | some t => if t.isEmpty then [] else [.plain (" - " ++ t)]
          | none => [])
        .ok (.single (.paragraph media_blocks))
      else regularFormat m
    | none => regularFormat m
  else regularFormat m

/-! ### The sync engine: `sync_messages_to_notion` (lines 266-519)

The Notion client is modelled by an environment recording the outcome of
every remote call the engine can make.  `none` models a call that raised (all
remote calls of the group loop sit inside local `try`/`except` blocks). -/

/-- The `SyncStatus` audit row (`models.py` lines 56-61). -/
structure SyncStatusRec where
  messages_synced : Nat
  success : Bool
  error_message : Option String
deriving DecidableEq, Repr

/-- The local relational store as the engine sees it. -/
structure DBState where
  messages : List Message
  syncRuns : List SyncStatusRec
deriving DecidableEq, Repr

/-- Remote writes the engine performs against the Notion workspace. -/
inductive NotionEffect where
  | appendBlocks (pageId : String) (blocks : List Block)
  | updatePage (pageId : String) (count : Int) (status : String)
deriving DecidableEq, Repr

/-- Outcomes of the remote calls of one engine run.  `childBlocks` is the
`blocks.children.list` response on the parent page as (type, id) pairs;
`dbTitle` the joined title text `databases.retrieve` reports for a child
database; `createMonthlyDb`/`createDailyPage` the net results of
`create_monthly_database`/`create_daily_page` (both catch their own
exceptions and return the new id or `None`); `queryDailyPage` the result ids
of the date-equality query; `pageCount` the `Messages` number property that
`pages.retrieve` reports (`none` covering a raised call, a missing property
and a `None` number); `appendOk`/`updateOk` whether the append and property
update calls succeed. -/
structure NotionEnv where
  hasClient : Bool
  parentPageId : Option String
  parentRetrieveOk : Bool
  parentRetrieveErr : String
  childBlocks : Option (List (String × String))
  dbTitle : String → String
  createMonthlyDb : Nat → Nat → Option String
  queryDailyPage : String → PyDate → Option (List String)
  createDailyPage : String → PyDate → Option String
  appendOk : String → Bool
  pageCount : String → Option Int
  updateOk : String → Bool
  fileUrl : String → Option String

/-- The monthly database title `f"Messages {month_name} {year}"`
(lines 34-35 and 355). -/
def monthDbTitle (d : PyDate) : String :=
  "Messages " ++ monthName d.month ++ " " ++ toString d.year

/-- The search loop of lines 352-389: list the parent's children, keep
`child_database` blocks, and return the id of the first one whose title
matches exactly; `none` when the listing raised or nothing matched. -/
def findMonthlyDb (env : NotionEnv) (title : String) : Option String :=
  match env.childBlocks with
  | none => none
  | some blocks =>
    ((blocks.filter (fun b => b.1 == "child_database")).find?
      (fun b => env.dbTitle b.2 == title)).map (fun b => b.2)

/-- Lines 349-394: the monthly database id after search and, if the search
left it falsy, creation. -/
def resolveMonthlyDb (env : NotionEnv) (d : PyDate) : Option String :=
  let found := findMonthlyDb env (monthDbTitle d)
  if pyTruthyStr found then found else env.createMonthlyDb d.year d.month

/-- Lines 400-434: the daily page id after the date query (first result if
any) and, if still falsy, creation. -/
def resolveDailyPage (env : NotionEnv) (dbid : String) (d : PyDate) :
    Option String :=
  let found :=
    match env.queryDailyPage dbid d with
    | none => none
    | some results => results.head?
  if pyTruthyStr found then found else env.createDailyPage dbid d

/-- The hierarchy resolution of one date group, `some pid` exactly when both
`continue` guards (lines 396-398 and 436-438) are passed. -/
def resolvePageId (env : NotionEnv) (d : PyDate) : Option String :=
  let mdb := resolveMonthlyDb env d
  if !pyTruthyStr mdb then none
  else
    let pid := resolveDailyPage env (mdb.getD "") d
    if !pyTruthyStr pid then none else pid

/-- Lines 441-451: format every message of the group and flatten; a
formatter exception (`TypeError` on a `NULL` text) escapes the group loop. -/
def formatGroup (env : NotionEnv) : List Message → Except String (List Block)
  | [] => .ok []
  | m :: rest =>
    match format_message_for_notion env.fileUrl m with
    | .error e => .error e
    | .ok r =>
      match formatGroup env rest with
      | .error e => .error e
      | .ok bs => .ok (flattenResult r ++ bs)

/-- Result of processing one date group: skipped by a `continue` (resolution,
append or property-update failure), fully synced, or aborted by an exception
the group loop does not catch. -/
inductive GroupOutcome where
  | skipped (effects : List NotionEffect)
  | ok (pageId : String) (newCount : Int) (effects : List NotionEffect)
  | fatal (err : String)
deriving Repr

/-- The body of the date-group loop (lines 344-495): resolve the hierarchy,
format, append, read the current `Messages` counter (0 on any failure),
write back counter + group size and status `Synced`. -/
def processGroup (env : NotionEnv) (d : PyDate) (ms : List Message) :
    GroupOutcome :=
  match resolvePageId env d with
  | none => .skipped []
  | some pid =>
    match formatGroup env ms with
    | .error e => .fatal e
    | .ok blocks =>
      if !env.appendOk pid then .skipped []
      else
        let current_count : Int := (env.pageCount pid).getD 0
        let new_count : Int := current_count + ms.length
        if !env.updateOk pid then .skipped [.appendBlocks pid blocks]
        else .ok pid new_count
          [.appendBlocks pid blocks, .updatePage pid new_count "Synced"]

/-- The group loop with its accumulators: staged (message id, page id) marks,
`total_synced`, emitted remote effects, and the uncaught exception if one
aborted the loop. -/
def runGroupsAux (env : NotionEnv) (groups : List (PyDate × List Message))
    (marks : List (Nat × String)) (total : Nat) (effs : List NotionEffect) :
    List (Nat × String) × Nat × List NotionEffect × Option String :=
  match groups with
  | [] => (marks, total, effs, none)
  | (d, ms) :: rest =>
    match processGroup env d ms with
    | .skipped es => runGroupsAux env rest marks total (effs ++ es)
    | .ok pid _ es =>
      runGroupsAux env rest (marks ++ ms.map (fun m => (m.id, pid)))
        (total + ms.length) (effs ++ es)
    | .fatal e => (marks, total, effs, some e)

/-- The effect of the staged marks on one message row. -/
def markRow (marks : List (Nat × String)) (m : Message) : Message :=
  match marks.lookup m.id with
  | some pid => { m with synced := true, notion_page_id := some pid }
  | none => m

/-- Lines 486-489 as they land in the store at commit: every staged mark sets
`synced = True` and `notion_page_id` on the row with that id. -/
def applyMarks (marks : List (Nat × String)) (msgs : List Message) :
    List Message :=
  msgs.map (markRow marks)

/-- The `order_by(TelegramMessage.timestamp)` fetch order (line 322): a
stable ascending sort on the timestamp. -/
def sortByTimestamp (l : List Message) : List Message :=
  l.insertionSort (fun a b => a.timestamp.key ≤ b.timestamp.key)

instance : DecidableRel
    (fun a b : Message => a.timestamp.key ≤ b.timestamp.key) :=
  fun a b => inferInstanceAs (Decidable (a.timestamp.key ≤ b.timestamp.key))

/-- Append a date to the bucket-key list unless present: the effect on the
key order of `messages_by_date[date_key].append(...)` with a Python dict. -/
def insertDate (ds : List PyDate) (d : PyDate) : List PyDate :=
  if d ∈ ds then ds else ds ++ [d]

def datesOfAux (acc : List PyDate) : List Message → List PyDate
  | [] => acc
  | m :: rest => datesOfAux (insertDate acc m.dateKey) rest

/-- The distinct calendar dates of the fetched messages, in first-occurrence
order (Python dict keys preserve insertion order). -/
def datesOf (l : List Message) : List PyDate := datesOfAux [] l

/-- The grouping of lines 333-339: for each date in first-occurrence order,
the bucket of all messages with that date, in fetched order. -/
def groupByDate (l : List Message) : List (PyDate × List Message) :=
  (datesOf l).map (fun d => (d, l.filter (fun m => m.dateKey == d)))

def clientErrMsg : String :=
  "Notion client not available - check your NOTION_INTEGRATION_SECRET environment variable"

def pageIdErrMsg : String :=
  "Notion page ID not configured - check your NOTION_PAGE_ID environment variable"

/-- `sync_messages_to_notion` (lines 266-519): validate configuration, fetch
and group the unsynced messages, process each group, commit the staged marks
and append the audit record.  An exception escaping the group loop lands in
the outermost handler, which writes a failed record; its commit also
flushes the marks already staged.  Returns the new store state and the
remote effects performed. -/
def sync_messages_to_notion (env : NotionEnv) (st : DBState) :
    DBState × List NotionEffect :=
  if !env.hasClient then
    ({ st with syncRuns := st.syncRuns ++ [⟨0, false, some clientErrMsg⟩] }, [])
  else if !pyTruthyStr env.parentPageId then
    ({ st with syncRuns := st.syncRuns ++ [⟨0, false, some pageIdErrMsg⟩] }, [])
  else if !env.parentRetrieveOk then
    ({ st with syncRuns :=
      st.syncRuns ++ [⟨0, false, some env.parentRetrieveErr⟩] }, [])
  else
    let unsynced := sortByTimestamp (st.messages.filter (fun m => !m.synced))
    if unsynced.isEmpty then
      ({ st with syncRuns := st.syncRuns ++ [⟨0, true, none⟩] }, [])
    else
      let groups := groupByDate unsynced
      match runGroupsAux env groups [] 0 [] with
      | (marks, total, effs, none) =>
        ({ messages := applyMarks marks st.messages,
           syncRuns := st.syncRuns ++ [⟨total, true, none⟩] }, effs)
      | (marks, _, effs, some e) =>
        ({ messages := applyMarks marks st.messages,
           syncRuns := st.syncRuns ++ [⟨0, false, some e⟩] }, effs)

/-- Whether the date group keyed by `d` runs through to its `MarkSynced`
step: the hierarchy resolves and both the append and the property update
succeed. -/
def groupSucceeds (env : NotionEnv) (d : PyDate) : Bool :=
  match resolvePageId env d with
  | none => false
  | some pid => env.appendOk pid && env.updateOk pid

/-- The daily page id a resolving group syncs its messages to. -/
def pageIdOf (env : NotionEnv) (d : PyDate) : String :=
  (resolvePageId env d).getD ""

/-! ## Claims about the backup engine -/

/-- C3: an undersized downloaded snapshot fails verification, the run
returns false and retention does not execute (nothing is deleted); retention
runs only when verification succeeded; and a failed dump or upload
short-circuits every later step. -/
theorem backup_run_gate (env : BackupEnv) (stored : List String) :
    ((∃ bs, env.downloadResult = some bs ∧ bs.length < 1000) →
      (perform_backup env stored).success = false ∧
      (perform_backup env stored).retentionRan = false ∧
      (perform_backup env stored).deleted = []) ∧
    ((perform_backup env stored).retentionRan = true →
      verify_backup env = true) ∧
    (env.dumpData = none →
      perform_backup env stored = ⟨false, false, false, false, []⟩) ∧
    (env.uploadSucceeds = false →
      (perform_backup env stored).success = false ∧
      (perform_backup env stored).verifyAttempted = false ∧
      (perform_backup env stored).retentionRan = false) := by
  obtain ⟨sa, dd, us, dr, day, wd, ds⟩ := env
  refine ⟨?_, ?_, ?_, ?_⟩
  · rintro ⟨bs, hbs, hlen⟩
    simp only at hbs
    subst hbs
    cases dd with
    | none => simp [perform_backup]
    | some data =>
      by_cases hde : data.isEmpty <;>
        cases sa <;> cases us <;>
          simp [perform_backup, save_backup_to_object_storage, verify_backup,
            hde, Nat.not_le.mpr hlen, hlen]
  · intro hret
    cases dd with
    | none => simp [perform_backup] at hret
    | some data =>
      by_cases hde : data.isEmpty <;>
        cases hv : verify_backup ⟨sa, some data, us, dr, day, wd, ds⟩ <;>
          cases sa <;> cases us <;>
            simp_all [perform_backup, save_backup_to_object_storage,
              verify_backup]
  · intro h
    simp only at h
    subst h
    simp [perform_backup]
  · intro h
    simp only at h
    subst h
    cases dd with
    | none => simp [perform_backup]
    | some data =>
      by_cases hde : data.isEmpty <;>
        cases sa <;>
          simp [perform_backup, save_backup_to_object_storage, hde]

/-- Environment of a backup run whose uploaded snapshot comes back 500 bytes
long. -/
def smallBackupEnv : BackupEnv :=
  ⟨true, some (List.replicate 2000 0), true, some (List.replicate 500 0),
    5, 2, "2024-06-05"⟩

/-- Witness for C3: with a 500-byte downloaded snapshot the run fails, runs
no retention, and deletes nothing. -/
theorem backup_run_gate_witness :
    (∃ bs, smallBackupEnv.downloadResult = some bs ∧ bs.length < 1000) ∧
    ((perform_backup smallBackupEnv
        ["backups/backup_2024-06-04_daily.sql.gz"]).success = false ∧
      (perform_backup smallBackupEnv
        ["backups/backup_2024-06-04_daily.sql.gz"]).retentionRan = false ∧
      (perform_backup smallBackupEnv
        ["backups/backup_2024-06-04_daily.sql.gz"]).deleted = []) :=
  ⟨⟨List.replicate 500 0, rfl, by rw [List.length_replicate]; norm_num⟩,
    (backup_run_gate smallBackupEnv
      ["backups/backup_2024-06-04_daily.sql.gz"]).1
      ⟨List.replicate 500 0, rfl, by rw [List.length_replicate]; norm_num⟩⟩

/-! Helper lemmas about the descending sort used by the retention policy. -/

instance : IsTotal String (fun a b => b ≤ a) := ⟨fun a b => le_total b a⟩

instance : IsTrans String (fun a b => b ≤ a) :=
  ⟨fun _ _ _ h1 h2 => le_trans h2 h1⟩

theorem sortDesc_perm (l : List String) : List.Perm (sortDesc l) l :=
  List.perm_insertionSort _ l

theorem sortDesc_sorted (l : List String) :
    (sortDesc l).Sorted (fun a b => b ≤ a) :=
  List.sorted_insertionSort _ l

/-- The guarded drop of the retention policy is just a drop. -/
theorem dropIf (n : Nat) (l : List String) :
    (if n < l.length then l.drop n else []) = l.drop n := by
  split
  · rfl
  · rw [eq_comm, List.drop_eq_nil_iff]
    omega

/-- Keeping, out of `l`, the `p`-keys that escape the tail of the descending
sort of the `p`-keys leaves exactly `min n` (count of `p`-keys) entries. -/
theorem keepCount (l : List String) (p : String → Bool) (n : Nat)
    (hnd : l.Nodup) :
    (l.filter (fun k =>
      p k && !(decide (k ∈ (sortDesc (l.filter p)).drop n)))).length
    = min n (l.filter p).length := by
  classical
  have hperm : List.Perm (l.filter p) (sortDesc (l.filter p)) := (sortDesc_perm _).symm
  set D := sortDesc (l.filter p) with hD
  set q : String → Bool := fun k => !(decide (k ∈ D.drop n)) with hq
  have hDnd : D.Nodup := hperm.nodup_iff.mp (hnd.filter p)
  have h1 : l.filter (fun k => p k && q k) = (l.filter p).filter q := by
    rw [List.filter_filter]
    apply List.filter_congr
    intro a _
    exact Bool.and_comm _ _
  have h2 : ((l.filter p).filter q).length = (D.filter q).length :=
    (hperm.filter q).length_eq
  have hdisj : List.Disjoint (D.take n) (D.drop n) := by
    have h := hDnd
    rw [← List.take_append_drop n D] at h
    exact List.disjoint_of_nodup_append h
  have htake : (D.take n).filter q = D.take n := by
    rw [List.filter_eq_self]
    intro a ha
    simp only [hq, Bool.not_eq_true', decide_eq_false_iff_not]
    exact fun hmem => hdisj ha hmem
  have hdrop : (D.drop n).filter q = [] := by
    rw [List.filter_eq_nil_iff]
    intro a ha
    simp [hq, ha]
  have h3 : D.filter q = D.take n := by
    conv_lhs => rw [← List.take_append_drop n D]
    rw [List.filter_append, htake, hdrop, List.append_nil]
  rw [h1, h2, h3, List.length_take, hperm.length_eq]

/-- Every dropped key of the descending sort is lexicographically smaller
than every retained `p`-key of `l`. -/
theorem dropOrder (l : List String) (p : String → Bool) (n : Nat)
    (hnd : l.Nodup) {x y : String}
    (hx : x ∈ (sortDesc (l.filter p)).drop n)
    (hy : y ∈ l.filter p) (hyn : y ∉ (sortDesc (l.filter p)).drop n) :
    x < y := by
  classical
  have hperm : List.Perm (l.filter p) (sortDesc (l.filter p)) := (sortDesc_perm _).symm
  set D := sortDesc (l.filter p) with hD
  have hDnd : D.Nodup := hperm.nodup_iff.mp (hnd.filter p)
  have hyD : y ∈ D := hperm.mem_iff.mp hy
  have hytake : y ∈ D.take n := by
    have hyall : y ∈ D.take n ++ D.drop n := by
      rw [List.take_append_drop]
      exact hyD
    have := List.mem_append.mp hyall
    tauto
  have hsorted : D.Pairwise (fun a b => b ≤ a) := sortDesc_sorted _
  have hacross : ∀ a ∈ D.take n, ∀ b ∈ D.drop n, b ≤ a := by
    have h := hsorted
    rw [← List.take_append_drop n D] at h
    exact fun a ha b hb => (List.pairwise_append.mp h).2.2 a ha b hb
  have hne : ∀ a ∈ D.take n, ∀ b ∈ D.drop n, a ≠ b := by
    have h := hDnd
    rw [← List.take_append_drop n D] at h
    exact fun a ha b hb => (List.pairwise_append.mp h).2.2 a ha b hb
  exact lt_of_le_of_ne (hacross y hytake x hx)
    (fun he => hne y hytake x hx he.symm)

/-- A dropped element of the sorted `p`-partition is a `p`-key of `l`. -/
theorem mem_drop_tier (l : List String) (p : String → Bool) (n : Nat)
    {x : String} (hx : x ∈ (sortDesc (l.filter p)).drop n) :
    p x = true ∧ x ∈ l := by
  have hxm : x ∈ sortDesc (l.filter p) := List.mem_of_mem_drop hx
  have hxf : x ∈ l.filter p := (sortDesc_perm _).mem_iff.mp hxm
  exact ⟨List.of_mem_filter hxf, List.mem_of_mem_filter hxf⟩

/-- Restriction of the kept keys to a tier whose deletions within `l` are
exactly `dp`. -/
theorem filter_kept_eq (stored : List String) (p : String → Bool)
    (deleted dp : List String)
    (hiff : ∀ k ∈ stored, p k = true → (k ∈ deleted ↔ k ∈ dp)) :
    (stored.filter (fun k => !(decide (k ∈ deleted)))).filter p
      = stored.filter (fun k => p k && !(decide (k ∈ dp))) := by
  rw [List.filter_filter]
  apply List.filter_congr
  intro k hk
  by_cases hp : p k = true
  · by_cases hd : k ∈ deleted <;> simp_all [hiff k hk hp, Bool.and_comm]
  · rw [Bool.not_eq_true] at hp
    simp [hp]

/-- A key matches at most one retention-tier pattern. -/
def tierExclusive (k : String) : Prop :=
  (isDailyKey k = true → isWeeklyKey k = false ∧ isMonthlyKey k = false) ∧
  (isWeeklyKey k = true → isMonthlyKey k = false)

instance (k : String) : Decidable (tierExclusive k) :=
  inferInstanceAs (Decidable (_ ∧ _))

/-- A one-table, one-row store used to exhibit the dump bug. -/
def sampleDb : List DbTable :=
  [⟨"telegram_message", ["id", "text"], [[.int 1, .str "hello"]]⟩]

/-- C2: the retention pass partitions the snapshot keys by tier substring,
keeps the lexicographically largest 7 daily / 4 weekly / 3 monthly keys, and
deletes exactly the rest; every deleted key is smaller than every kept key
of its tier, and the kept count of a tier depends only on that tier's own
key count. -/
theorem retention_policy_correct (stored : List String)
    (hnd : stored.Nodup)
    (hpre : ∀ k ∈ stored, ("backups/backup_").data.isPrefixOf k.data = true)
    (hexc : ∀ k ∈ stored, tierExclusive k) :
    ((keptAfterRetention true stored).filter isDailyKey).length
      = min DAILY_RETENTION (stored.filter isDailyKey).length ∧
    ((keptAfterRetention true stored).filter isWeeklyKey).length
      = min WEEKLY_RETENTION (stored.filter isWeeklyKey).length ∧
    ((keptAfterRetention true stored).filter isMonthlyKey).length
      = min MONTHLY_RETENTION (stored.filter isMonthlyKey).length ∧
    (∀ x ∈ apply_retention_policy true stored,
     ∀ y ∈ keptAfterRetention true stored,
      ((isDailyKey x = true ∧ isDailyKey y = true) ∨
       (isWeeklyKey x = true ∧ isWeeklyKey y = true) ∨
       (isMonthlyKey x = true ∧ isMonthlyKey y = true)) → x < y) := by
  classical
  have hlist : list_existing_backups stored = stored := by
    rw [list_existing_backups, List.filter_eq_self]
    exact hpre
  set Dd := (sortDesc (stored.filter isDailyKey)).drop DAILY_RETENTION
    with hDd
  set Dw := (sortDesc (stored.filter isWeeklyKey)).drop WEEKLY_RETENTION
    with hDw
  set Dm := (sortDesc (stored.filter isMonthlyKey)).drop MONTHLY_RETENTION
    with hDm
  have hdel : apply_retention_policy true stored = Dd ++ Dw ++ Dm := by
    rw [apply_retention_policy]
    simp only [Bool.not_true, Bool.false_eq_true, if_false, hlist,
      retentionToDelete, dropIf]
  have hmemdel : ∀ x, x ∈ apply_retention_policy true stored ↔
      x ∈ Dd ∨ x ∈ Dw ∨ x ∈ Dm := by
    intro x
    rw [hdel]
    simp [or_assoc]
  -- membership in a tier's dropped tail forces that tier's pattern
  have hDdp : ∀ x ∈ Dd, isDailyKey x = true ∧ x ∈ stored :=
    fun x hx => mem_drop_tier stored isDailyKey DAILY_RETENTION hx
  have hDwp : ∀ x ∈ Dw, isWeeklyKey x = true ∧ x ∈ stored :=
    fun x hx => mem_drop_tier stored isWeeklyKey WEEKLY_RETENTION hx
  have hDmp : ∀ x ∈ Dm, isMonthlyKey x = true ∧ x ∈ stored :=
    fun x hx => mem_drop_tier stored isMonthlyKey MONTHLY_RETENTION hx
  -- for a key of one tier, deletion is deletion within that tier
  have hiffd : ∀ k ∈ stored, isDailyKey k = true →
      (k ∈ apply_retention_policy true stored ↔ k ∈ Dd) := by
    intro k hk hdk
    rw [hmemdel]
    constructor
    · rintro (h | h | h)
      · exact h
      · exact absurd (hDwp k h).1 (by simp [((hexc k hk).1 hdk).1])
      · exact absurd (hDmp k h).1 (by simp [((hexc k hk).1 hdk).2])
    · exact fun h => Or.inl h
  have hiffw : ∀ k ∈ stored, isWeeklyKey k = true →
      (k ∈ apply_retention_policy true stored ↔ k ∈ Dw) := by
    intro k hk hwk
    have hnd' : isDailyKey k = false := by
      by_contra hcon
      rw [Bool.not_eq_false] at hcon
      exact absurd hwk (by simp [((hexc k hk).1 hcon).1])
    rw [hmemdel]
    constructor
    · rintro (h | h | h)
      · exact absurd (hDdp k h).1 (by simp [hnd'])
      · exact h
      · exact absurd (hDmp k h).1 (by simp [(hexc k hk).2 hwk])
    · exact fun h => Or.inr (Or.inl h)
  have hiffm : ∀ k ∈ stored, isMonthlyKey k = true →
      (k ∈ apply_retention_policy true stored ↔ k ∈ Dm) := by
    intro k hk hmk
    have hnd' : isDailyKey k = false := by
      by_contra hcon
      rw [Bool.not_eq_false] at hcon
      exact absurd hmk (by simp [((hexc k hk).1 hcon).2])
    have hnw : isWeeklyKey k = false := by
      by_contra hcon
      rw [Bool.not_eq_false] at hcon
      exact absurd hmk (by simp [(hexc k hk).2 hcon])
    rw [hmemdel]
    constructor
    · rintro (h | h | h)
      · exact absurd (hDdp k h).1 (by simp [hnd'])
      · exact absurd (hDwp k h).1 (by simp [hnw])
      · exact h
    · exact fun h => Or.inr (Or.inr h)
  have hkept : keptAfterRetention true stored
      = stored.filter
          (fun k => !(decide (k ∈ apply_retention_policy true stored))) := rfl
  refine ⟨?_, ?_, ?_, ?_⟩
  · rw [hkept, filter_kept_eq stored isDailyKey _ Dd hiffd, hDd]
    exact keepCount stored isDailyKey DAILY_RETENTION hnd
  · rw [hkept, filter_kept_eq stored isWeeklyKey _ Dw hiffw, hDw]
    exact keepCount stored isWeeklyKey WEEKLY_RETENTION hnd
  · rw [hkept, filter_kept_eq stored isMonthlyKey _ Dm hiffm, hDm]
    exact keepCount stored isMonthlyKey MONTHLY_RETENTION hnd
  · intro x hx y hy hcase
    have hy' : y ∈ stored ∧ ¬(y ∈ apply_retention_policy true stored) := by
      have := List.mem_filter.mp hy
      refine ⟨this.1, ?_⟩
      have h2 := this.2
      simpa using h2
    rcases hcase with ⟨hxd, hyd⟩ | ⟨hxw, hyw⟩ | ⟨hxm, hym⟩
    · have hxDd : x ∈ Dd := by
        have hxs : x ∈ stored := by
          rcases (hmemdel x).mp hx with h | h | h
          · exact (hDdp x h).2
          · exact (hDwp x h).2
          · exact (hDmp x h).2
        exact (hiffd x hxs hxd).mp hx
      have hyn : y ∉ Dd := fun hc => hy'.2 ((hiffd y hy'.1 hyd).mpr hc)
      exact dropOrder stored isDailyKey DAILY_RETENTION hnd hxDd
        (List.mem_filter.mpr ⟨hy'.1, hyd⟩) hyn
    · have hxDw : x ∈ Dw := by
        have hxs : x ∈ stored := by
          rcases (hmemdel x).mp hx with h | h | h
          · exact (hDdp x h).2
          · exact (hDwp x h).2
          · exact (hDmp x h).2
        exact (hiffw x hxs hxw).mp hx
      have hyn : y ∉ Dw := fun hc => hy'.2 ((hiffw y hy'.1 hyw).mpr hc)
      exact dropOrder stored isWeeklyKey WEEKLY_RETENTION hnd hxDw
        (List.mem_filter.mpr ⟨hy'.1, hyw⟩) hyn
    · have hxDm : x ∈ Dm := by
        have hxs : x ∈ stored := by
          rcases (hmemdel x).mp hx with h | h | h
          · exact (hDdp x h).2
          · exact (hDwp x h).2
          · exact (hDmp x h).2
        exact (hiffm x hxs hxm).mp hx
      have hyn : y ∉ Dm := fun hc => hy'.2 ((hiffm y hy'.1 hym).mpr hc)
      exact dropOrder stored isMonthlyKey MONTHLY_RETENTION hnd hxDm
        (List.mem_filter.mpr ⟨hy'.1, hym⟩) hyn

/-- Storage holding 10 daily, 5 weekly and 2 monthly snapshots. -/
def sampleKeys : List String :=
  ["backups/backup_2024-06-01_daily.sql.gz",
   "backups/backup_2024-06-02_daily.sql.gz",
   "backups/backup_2024-06-03_daily.sql.gz",
   "backups/backup_2024-06-04_daily.sql.gz",
   "backups/backup_2024-06-05_daily.sql.gz",
   "backups/backup_2024-06-06_daily.sql.gz",
   "backups/backup_2024-06-07_daily.sql.gz",
   "backups/backup_2024-06-08_daily.sql.gz",
   "backups/backup_2024-06-09_daily.sql.gz",
   "backups/backup_2024-06-10_daily.sql.gz",
   "backups/backup_2024-05-05_weekly.sql.gz",
   "backups/backup_2024-05-12_weekly.sql.gz",
   "backups/backup_2024-05-19_weekly.sql.gz",
   "backups/backup_2024-05-26_weekly.sql.gz",
   "backups/backup_2024-06-02_weekly.sql.gz",
   "backups/backup_2024-05-01_monthly.sql.gz",
   "backups/backup_2024-06-01_monthly.sql.gz"]

set_option maxRecDepth 16000 in
/-- Witness for C2: with 10 daily, 5 weekly and 2 monthly snapshots stored,
exactly 7 daily, 4 weekly and 2 monthly remain after retention. -/
theorem retention_policy_correct_witness :
    ((keptAfterRetention true sampleKeys).filter isDailyKey).length = 7 ∧
    ((keptAfterRetention true sampleKeys).filter isWeeklyKey).length = 4 ∧
    ((keptAfterRetention true sampleKeys).filter isMonthlyKey).length = 2 := by
  have h := retention_policy_correct sampleKeys (by decide) (by decide)
    (by decide)
  refine ⟨?_, ?_, ?_⟩
  · rw [h.1]; decide
  · rw [h.2.1]; decide
  · rw [h.2.2.1]; decide

set_option maxRecDepth 8000 in
/-- C4 (code bug): the store is non-empty, yet the dump contains no INSERT
statement at all and one fetch-error comment per table — the data query
passes the table name as a bound parameter, which the driver adapts into a
quoted string literal that the SQL dialect rejects, so every per-table fetch
lands in the error handler of lines 111-113. -/
theorem create_db_backup_drops_all_rows :
    (sampleDb.any (fun t => !t.rows.isEmpty)) = true ∧
    (create_db_backup sampleDb).filter isInsertLine = [] ∧
    ((create_db_backup sampleDb).filter
      (fun l => ("-- Error fetching data:").data.isPrefixOf l.data)).length
      = 1 := by
  decide

/-! ## Claims about the message formatter -/

/-- The regular-text path succeeds on any message whose `text` column holds a
string. -/
theorem regularFormat_ok {m : Message} {t : String} (ht : m.text = some t) :
    regularFormat m
      = .ok (.single (.paragraph (.plain (regularHeader m) :: textSpans t))) := by
  rw [regularFormat, ht]

/-- The formatter succeeds on every message whose `text` column holds a
string, whatever the media fields hold. -/
theorem format_ok (fileUrl : String → Option String) (m : Message)
    {t : String} (ht : m.text = some t) :
    ∃ r, format_message_for_notion fileUrl m = .ok r := by
  rw [format_message_for_notion]
  cases hhm : m.has_media
  · simp only [Bool.false_eq_true, if_false]
    exact ⟨_, regularFormat_ok ht⟩
  · simp only [if_true]
    cases hmt : m.media_type with
    | none => exact ⟨_, regularFormat_ok ht⟩
    | some mt =>
      by_cases h1 : mt = "image"
      · simp only [h1, if_pos rfl]
        exact ⟨_, rfl⟩
      · by_cases h2 : mt = "document" || mt = "video" || mt = "audio"
        · simp only [if_neg h1, h2, if_true]
          exact ⟨_, rfl⟩
        · simp only [if_neg h1, h2, Bool.false_eq_true, if_false]
          exact ⟨_, regularFormat_ok ht⟩

/-- C5: on every stored message the formatter is total and pure — the
webhook ingestion (telegram_bot.py lines 77-156) always stores a string in
`text`, empty when the message carried none — and a message whose media kind
is not one of image/document/video/audio falls through to the plain-text
path. -/
theorem formatter_total_and_fallback (fileUrl : String → Option String)
    (m : Message) (h : m.text.isSome = true) :
    (∃ r, format_message_for_notion fileUrl m = .ok r) ∧
    (∀ mt, m.media_type = some mt → mt ≠ "image" → mt ≠ "document" →
      mt ≠ "video" → mt ≠ "audio" →
      format_message_for_notion fileUrl m = regularFormat m) := by
  obtain ⟨t, ht⟩ := Option.isSome_iff_exists.mp h
  refine ⟨format_ok fileUrl m ht, ?_⟩
  intro mt hmt h1 h2 h3 h4
  rw [format_message_for_notion]
  cases hhm : m.has_media
  · simp only [Bool.false_eq_true, if_false]
  · simp only [if_true, hmt]
    simp [h1, h2, h3, h4]

/-! Lemmas for the URL round-trip claim. -/

/-- The characters of all pieces of a split, in order. -/
def partsChars : List (Bool × String) → List Char
  | [] => []
  | (_, s) :: rest => s.data ++ partsChars rest

/-- The characters of all span contents, in order. -/
def richChars : List RichText → List Char
  | [] => []
  | rt :: rest => rt.contentOf.data ++ richChars rest

/-- Concatenation of all span contents. -/
def spansText : List RichText → String
  | [] => ""
  | rt :: rest => rt.contentOf ++ spansText rest

theorem spansText_data (l : List RichText) :
    (spansText l).data = richChars l := by
  induction l with
  | nil => rfl
  | cons rt rest ih =>
    show (rt.contentOf ++ spansText rest).data = _
    show rt.contentOf.data ++ (spansText rest).data = _
    rw [ih]
    rfl

/-- The split never loses a character: its pieces concatenate back to the
pending prefix followed by the remaining input. -/
theorem split_chars (fuel : Nat) (cs pending : List Char) :
    partsChars (pySplitUrlsFuel fuel cs pending) = pending.reverse ++ cs := by
  induction fuel generalizing cs pending with
  | zero =>
    cases cs with
    | nil => simp [pySplitUrlsFuel, partsChars]
    | cons c rest => simp [pySplitUrlsFuel, partsChars]
  | succ fuel ih =>
    cases cs with
    | nil => simp [pySplitUrlsFuel, partsChars]
    | cons c rest =>
      rw [pySplitUrlsFuel]
      cases hm : matchUrlAt (c :: rest) with
      | none =>
        rw [ih rest (c :: pending)]
        simp
      | some pr =>
        obtain ⟨url, rest'⟩ := pr
        simp only [partsChars, ih rest' []]
        have hspec := (matchUrlAt_spec hm).1
        simp only [List.reverse_nil, List.nil_append]
        rw [hspec]

/-- Dropping the empty non-matched pieces does not change the characters. -/
theorem emit_chars (ps : List (Bool × String)) :
    richChars (emitParts ps) = partsChars ps := by
  induction ps with
  | nil => rfl
  | cons p rest ih =>
    obtain ⟨b, s⟩ := p
    cases b with
    | false =>
      by_cases hs : s.isEmpty
      · have hempty : s = "" := (String.isEmpty_iff s).mp hs
        subst hempty
        simp [emitParts, hs, partsChars, ih]
      · simp [emitParts, hs, richChars, partsChars, ih, RichText.contentOf]
    | true => simp [emitParts, richChars, partsChars, ih, RichText.contentOf]

/-- Every link span emitted by the split links to its own content. -/
theorem emit_links (ps : List (Bool × String)) :
    ∀ c u, RichText.link c u ∈ emitParts ps → u = some c := by
  induction ps with
  | nil => intro c u h; cases h
  | cons p rest ih =>
    obtain ⟨b, s⟩ := p
    intro c u h
    cases b with
    | false =>
      by_cases hs : s.isEmpty
      · rw [emitParts, if_pos hs] at h
        exact ih c u h
      · rw [emitParts, if_neg hs] at h
        rcases List.mem_cons.mp h with hc | hrest
        · cases hc
        · exact ih c u hrest
    | true =>
      rcases List.mem_cons.mp h with hc | hrest
      · cases hc; rfl
      · exact ih c u hrest

theorem drop_length_takeWhile (p : Char → Bool) (l : List Char) :
    l.drop (l.takeWhile p).length = l.dropWhile p := by
  induction l with
  | nil => rfl
  | cons a as ih =>
    by_cases hp : p a = true
    · rw [List.takeWhile_cons_of_pos hp, List.dropWhile_cons_of_pos hp]
      simpa using ih
    · rw [List.takeWhile_cons_of_neg hp, List.dropWhile_cons_of_neg hp]
      rfl

theorem dropWhile_head_false {p : Char → Bool} :
    ∀ (l : List Char) (c : Char) (cs : List Char),
      l.dropWhile p = c :: cs → p c = false := by
  intro l
  induction l with
  | nil => intro c cs h; cases h
  | cons a as ih =>
    intro c cs h
    by_cases hp : p a = true
    · rw [List.dropWhile_cons_of_pos hp] at h
      exact ih c cs h
    · rw [List.dropWhile_cons_of_neg hp] at h
      cases h
      simpa using hp

/-- The remainder after a URL match is empty or opens with whitespace: the
run of non-whitespace characters is taken greedily. -/
theorem matchUrlAt_rest_head {cs url rest' : List Char}
    (h : matchUrlAt cs = some (url, rest')) :
    rest' = [] ∨ ∃ c' cs', rest' = c' :: cs' ∧ isPySpace c' = true := by
  unfold matchUrlAt at h
  cases hs : matchScheme cs with
  | none => rw [hs] at h; cases h
  | some k =>
    rw [hs] at h
    simp only at h
    split at h
    · cases h
    · cases h
      have hsplit : (cs.drop k).drop
          ((cs.drop k).takeWhile (fun c => !isPySpace c)).length
          = (cs.drop k).dropWhile (fun c => !isPySpace c) :=
        drop_length_takeWhile _ (cs.drop k)
      have hdd : cs.drop
          (k + ((cs.drop k).takeWhile (fun c => !isPySpace c)).length)
          = (cs.drop k).dropWhile (fun c => !isPySpace c) := by
        rw [← hsplit, List.drop_drop, Nat.add_comm]
      rw [hdd]
      cases hdw : (cs.drop k).dropWhile (fun c => !isPySpace c) with
      | nil => exact Or.inl rfl
      | cons c' cs' =>
        refine Or.inr ⟨c', cs', rfl, ?_⟩
        have := dropWhile_head_false (cs.drop k) c' cs' hdw
        simpa using this

/-- No URL match can start at a whitespace character. -/
theorem matchUrlAt_space {c : Char} {cs : List Char}
    (hsp : isPySpace c = true) : matchUrlAt (c :: cs) = none := by
  have hne : c ≠ 'h' := by
    intro he
    subst he
    simp [isPySpace] at hsp
  have hs : matchScheme (c :: cs) = none := by
    unfold matchScheme
    have h1 : httpsPat.isPrefixOf (c :: cs) = false := by
      simp [httpsPat, List.isPrefixOf]
      intro he
      exact absurd he.symm hne
    have h2 : httpPat.isPrefixOf (c :: cs) = false := by
      simp [httpPat, List.isPrefixOf]
      intro he
      exact absurd he.symm hne
    rw [h1, h2]
    rfl
  unfold matchUrlAt
  rw [hs]

/-- After a non-empty pending piece, the first emitted span is plain. -/
theorem head_plain_of_pending (fuel : Nat) :
    ∀ (cs pending : List Char), pending ≠ [] →
      ∀ rt, (emitParts (pySplitUrlsFuel fuel cs pending)).head? = some rt →
        rt.isLink = false := by
  induction fuel with
  | zero =>
    intro cs pending hp rt hrt
    cases cs with
    | nil =>
      rw [pySplitUrlsFuel] at hrt
      have hne : ¬(String.mk pending.reverse).isEmpty = true := by
        rw [String.isEmpty_iff]
        intro he
        apply hp
        have : pending.reverse = ([] : List Char) := congrArg String.data he
        simpa using this
      rw [emitParts, if_neg hne] at hrt
      cases hrt
      rfl
    | cons c rest =>
      rw [pySplitUrlsFuel] at hrt
      have hne : ¬(String.mk (pending.reverse ++ c :: rest)).isEmpty = true := by
        rw [String.isEmpty_iff]
        intro he
        have : pending.reverse ++ c :: rest = ([] : List Char) :=
          congrArg String.data he
        simp at this
      rw [emitParts, if_neg hne] at hrt
      cases hrt
      rfl
  | succ fuel ih =>
    intro cs pending hp rt hrt
    cases cs with
    | nil =>
      rw [pySplitUrlsFuel] at hrt
      have hne : ¬(String.mk pending.reverse).isEmpty = true := by
        rw [String.isEmpty_iff]
        intro he
        apply hp
        have : pending.reverse = ([] : List Char) := congrArg String.data he
        simpa using this
      rw [emitParts, if_neg hne] at hrt
      cases hrt
      rfl
    | cons c rest =>
      rw [pySplitUrlsFuel] at hrt
      cases hm : matchUrlAt (c :: rest) with
      | none =>
        rw [hm] at hrt
        exact ih rest (c :: pending) (by simp) rt hrt
      | some pr =>
        obtain ⟨url, rest'⟩ := pr
        rw [hm] at hrt
        have hne : ¬(String.mk pending.reverse).isEmpty = true := by
          rw [String.isEmpty_iff]
          intro he
          apply hp
          have : pending.reverse = ([] : List Char) := congrArg String.data he
          simpa using this
        simp only [emitParts, if_neg hne] at hrt
        cases hrt
        rfl

/-- Starting a fresh scan on empty or whitespace-headed input, the first
emitted span is plain. -/
theorem head_plain_fresh (fuel : Nat) (cs : List Char)
    (hcs : cs = [] ∨ ∃ c' cs', cs = c' :: cs' ∧ isPySpace c' = true) :
    ∀ rt, (emitParts (pySplitUrlsFuel fuel cs [])).head? = some rt →
      rt.isLink = false := by
  rcases hcs with hnil | ⟨c', cs', hcons, hsp⟩
  · subst hnil
    intro rt hrt
    cases fuel <;>
      simp [pySplitUrlsFuel, emitParts, String.isEmpty_iff] at hrt
  · subst hcons
    cases fuel with
    | zero =>
      intro rt hrt
      rw [pySplitUrlsFuel] at hrt
      have hne : ¬(String.mk (([] : List Char).reverse ++ c' :: cs')).isEmpty
          = true := by
        rw [String.isEmpty_iff]
        intro he
        have : ([] : List Char).reverse ++ c' :: cs' = ([] : List Char) :=
          congrArg String.data he
        simp at this
      rw [emitParts, if_neg hne] at hrt
      cases hrt
      rfl
    | succ fuel =>
      intro rt hrt
      rw [pySplitUrlsFuel, matchUrlAt_space hsp] at hrt
      exact head_plain_of_pending fuel cs' [c'] (by simp) rt hrt

/-- The emitted spans strictly alternate between plain and link spans. -/
theorem alt_spans (fuel : Nat) :
    ∀ (cs pending : List Char),
      List.Chain' (fun a b : RichText => a.isLink ≠ b.isLink)
        (emitParts (pySplitUrlsFuel fuel cs pending)) := by
  induction fuel with
  | zero =>
    intro cs pending
    cases cs with
    | nil =>
      rw [pySplitUrlsFuel]
      by_cases hs : (String.mk pending.reverse).isEmpty
      · simp [emitParts, hs]
      · simp [emitParts, hs]
    | cons c rest =>
      rw [pySplitUrlsFuel]
      by_cases hs : (String.mk (pending.reverse ++ c :: rest)).isEmpty
      · simp [emitParts, hs]
      · simp [emitParts, hs]
  | succ fuel ih =>
    intro cs pending
    cases cs with
    | nil =>
      rw [pySplitUrlsFuel]
      by_cases hs : (String.mk pending.reverse).isEmpty
      · simp [emitParts, hs]
      · simp [emitParts, hs]
    | cons c rest =>
      rw [pySplitUrlsFuel]
      cases hm : matchUrlAt (c :: rest) with
      | none => exact ih rest (c :: pending)
      | some pr =>
        obtain ⟨url, rest'⟩ := pr
        have hrest := matchUrlAt_rest_head hm
        have hhead := head_plain_fresh fuel rest' hrest
        have htail := ih rest' []
        have hlink : List.Chain' (fun a b : RichText => a.isLink ≠ b.isLink)
            (RichText.link (String.mk url) (some (String.mk url)) ::
              emitParts (pySplitUrlsFuel fuel rest' [])) := by
          rw [List.chain'_cons']
          refine ⟨?_, htail⟩
          intro y hy
          have hfalse := hhead y hy
          rw [hfalse]
          simp [RichText.isLink]
        by_cases hs : (String.mk pending.reverse).isEmpty
        · simpa [emitParts, hs] using hlink
        · simp only [emitParts, if_neg hs]
          rw [List.chain'_cons']
          refine ⟨?_, hlink⟩
          intro y hy
          simp only [List.head?_cons, Option.mem_def, Option.some.injEq] at hy
          subst hy
          simp [RichText.isLink]

/-- The spans of a URL-bearing text concatenate back to the text. -/
theorem urlSpans_roundtrip (t : String) : spansText (urlSpans t) = t := by
  apply String.ext
  rw [spansText_data, urlSpans, pySplitUrls, emit_chars, split_chars]
  simp

/-- C6: on a non-media message whose text matches the URL pattern, the
formatter emits the header followed by strictly alternating plain and link
spans whose contents concatenate back to the original text exactly, every
link span linking to its own content; on the text
`see https://example.com/a,b now` the link span's content is exactly
`https://example.com/a,b`. -/
theorem formatter_link_roundtrip (fileUrl : String → Option String)
    (m : Message) (t : String) (hm : m.has_media = false)
    (ht : m.text = some t) (hu : hasUrlAux t.data = true) :
    format_message_for_notion fileUrl m
      = .ok (.single (.paragraph (.plain (regularHeader m) :: urlSpans t))) ∧
    spansText (urlSpans t) = t ∧
    (∀ c u, RichText.link c u ∈ urlSpans t → u = some c) ∧
    List.Chain' (fun a b : RichText => a.isLink ≠ b.isLink) (urlSpans t) ∧
    (t = "see https://example.com/a,b now" →
      urlSpans t = [.plain "see ",
        .link "https://example.com/a,b" (some "https://example.com/a,b"),
        .plain " now"]) := by
  refine ⟨?_, urlSpans_roundtrip t, ?_, ?_, ?_⟩
  · have h1 : format_message_for_notion fileUrl m = regularFormat m := by
      rw [format_message_for_notion]
      simp only [hm, Bool.false_eq_true, if_false]
    rw [h1, regularFormat_ok ht, textSpans, if_pos hu]
  · exact emit_links _
  · exact alt_spans _ _ _
  · intro heq
    subst heq
    decide

/-- A stored plain-text message containing a URL with an embedded comma. -/
def linkMessage : Message :=
  { id := 2, text := some "see https://example.com/a,b now",
    timestamp := ⟨⟨2024, 6, 5⟩, 9, 15, 0⟩,
    username := some "bob", first_name := none, last_name := none,
    media_type := none, media_stored_path := none, media_filename := none,
    synced := false, notion_page_id := none }

/-- Witness for C6 at the text `see https://example.com/a,b now`. -/
theorem formatter_link_roundtrip_witness :
    format_message_for_notion (fun p => some p) linkMessage
      = .ok (.single (.paragraph (.plain (regularHeader linkMessage) ::
          urlSpans "see https://example.com/a,b now"))) ∧
    spansText (urlSpans "see https://example.com/a,b now")
      = "see https://example.com/a,b now" ∧
    urlSpans "see https://example.com/a,b now" = [.plain "see ",
      .link "https://example.com/a,b" (some "https://example.com/a,b"),
      .plain " now"] :=
  have h := formatter_link_roundtrip (fun p => some p) linkMessage
    "see https://example.com/a,b now" (by decide) rfl (by decide)
  ⟨h.1, h.2.1, h.2.2.2.2 rfl⟩

/-- A stored message with an unrecognized media kind and a plain caption. -/
def stickerMessage : Message :=
  { id := 1, text := some "hi", timestamp := ⟨⟨2024, 6, 5⟩, 12, 30, 0⟩,
    username := some "alice", first_name := none, last_name := none,
    media_type := some "sticker", media_stored_path := some "m/1.webp",
    media_filename := some "1.webp", synced := false,
    notion_page_id := none }

/-- Witness for C5: the formatter succeeds on a message with an unrecognized
media kind, producing the plain-text formatting. -/
theorem formatter_total_and_fallback_witness :
    (∃ r, format_message_for_notion (fun p => some p) stickerMessage
        = .ok r) ∧
    format_message_for_notion (fun p => some p) stickerMessage
      = regularFormat stickerMessage :=
  ⟨(formatter_total_and_fallback (fun p => some p) stickerMessage rfl).1,
    (formatter_total_and_fallback (fun p => some p) stickerMessage rfl).2
      "sticker" rfl (by decide) (by decide) (by decide) (by decide)⟩

/-! ## Claims about the sync engine -/

/-- One run with a fully valid configuration and no unsynced rows: a single
successful zero-count audit record, message rows untouched, no remote
writes. -/
theorem sync_step_no_unsynced (env : NotionEnv) (st : DBState)
    (hc : env.hasClient = true) (hp : pyTruthyStr env.parentPageId = true)
    (hr : env.parentRetrieveOk = true)
    (hall : ∀ m ∈ st.messages, m.synced = true) :
    sync_messages_to_notion env st
      = ({ st with syncRuns := st.syncRuns ++ [⟨0, true, none⟩] }, []) := by
  have hfil : st.messages.filter (fun m => !m.synced) = [] := by
    rw [List.filter_eq_nil_iff]
    intro m hm
    simp [hall m hm]
  rw [sync_messages_to_notion]
  simp [hc, hp, hr, hfil, sortByTimestamp]

/-- C1: running the engine with a valid configuration and no unsynced
message rows writes one `SyncRun{count=0, success=true}` record and changes
no message row; running it twice yields two such records and unchanged
rows. -/
theorem sync_idempotent_no_unsynced (env : NotionEnv) (st : DBState)
    (hc : env.hasClient = true) (hp : pyTruthyStr env.parentPageId = true)
    (hr : env.parentRetrieveOk = true)
    (hall : ∀ m ∈ st.messages, m.synced = true) :
    (sync_messages_to_notion env st).1.messages = st.messages ∧
    (sync_messages_to_notion env st).1.syncRuns
      = st.syncRuns ++ [⟨0, true, none⟩] ∧
    (sync_messages_to_notion env st).2 = [] ∧
    (sync_messages_to_notion env
        (sync_messages_to_notion env st).1).1.messages = st.messages ∧
    (sync_messages_to_notion env
        (sync_messages_to_notion env st).1).1.syncRuns
      = st.syncRuns ++ [⟨0, true, none⟩, ⟨0, true, none⟩] := by
  have h1 := sync_step_no_unsynced env st hc hp hr hall
  have hall1 : ∀ m ∈ (sync_messages_to_notion env st).1.messages,
      m.synced = true := by
    rw [h1]
    exact hall
  have h2 := sync_step_no_unsynced env (sync_messages_to_notion env st).1
    hc hp hr hall1
  rw [h1] at h2 ⊢
  rw [h2]
  simp

/-- An environment whose remote calls all succeed, with an empty workspace
(everything gets created) whose counter reads report no number. -/
def envOk : NotionEnv :=
  { hasClient := true, parentPageId := some "root", parentRetrieveOk := true,
    parentRetrieveErr := "", childBlocks := some [],
    dbTitle := fun _ => "", createMonthlyDb := fun _ _ => some "mdb",
    queryDailyPage := fun _ _ => some [],
    createDailyPage := fun _ _ => some "page",
    appendOk := fun _ => true, pageCount := fun _ => none,
    updateOk := fun _ => true, fileUrl := fun p => some p }

/-- An already-synced message row. -/
def syncedMsg : Message :=
  { id := 7, text := some "done", timestamp := ⟨⟨2024, 6, 1⟩, 8, 0, 0⟩,
    username := some "alice", first_name := none, last_name := none,
    media_type := none, media_stored_path := none, media_filename := none,
    synced := true, notion_page_id := some "page-1" }

/-- A store with one already-synced message and no audit records. -/
def stAllSynced : DBState := ⟨[syncedMsg], []⟩

/-- Witness for C1 on a store whose single message is already synced. -/
theorem sync_idempotent_no_unsynced_witness :
    (sync_messages_to_notion envOk stAllSynced).1.messages
      = stAllSynced.messages ∧
    (sync_messages_to_notion envOk stAllSynced).1.syncRuns
      = stAllSynced.syncRuns ++ [⟨0, true, none⟩] ∧
    (sync_messages_to_notion envOk stAllSynced).2 = [] ∧
    (sync_messages_to_notion envOk
        (sync_messages_to_notion envOk stAllSynced).1).1.messages
      = stAllSynced.messages ∧
    (sync_messages_to_notion envOk
        (sync_messages_to_notion envOk stAllSynced).1).1.syncRuns
      = stAllSynced.syncRuns ++ [⟨0, true, none⟩, ⟨0, true, none⟩] :=
  sync_idempotent_no_unsynced envOk stAllSynced rfl (by decide) rfl
    (by decide)

/-- C7: a missing client or an unset workspace root id makes the run write
exactly one failed `SyncRun` record with a descriptive error, touch no
message row and perform no remote write. -/
theorem sync_failfast_config (env : NotionEnv) (st : DBState)
    (h : env.hasClient = false ∨ pyTruthyStr env.parentPageId = false) :
    (sync_messages_to_notion env st).1.messages = st.messages ∧
    (sync_messages_to_notion env st).2 = [] ∧
    (env.hasClient = false →
      (sync_messages_to_notion env st).1.syncRuns
        = st.syncRuns ++ [⟨0, false, some clientErrMsg⟩]) ∧
    (env.hasClient = true →
      (sync_messages_to_notion env st).1.syncRuns
        = st.syncRuns ++ [⟨0, false, some pageIdErrMsg⟩]) ∧
    clientErrMsg ≠ "" ∧ pageIdErrMsg ≠ "" := by
  cases hcb : env.hasClient with
  | false =>
    rw [sync_messages_to_notion]
    simp [hcb, clientErrMsg, pageIdErrMsg]
  | true =>
    have hp : pyTruthyStr env.parentPageId = false := by
      rcases h with h | h
      · rw [hcb] at h; cases h
      · exact h
    rw [sync_messages_to_notion]
    simp [hcb, hp, clientErrMsg, pageIdErrMsg]

/-- The environment of a run with no Notion client configured. -/
def envNoClient : NotionEnv := { envOk with hasClient := false }

/-- Witness for C7: with no client configured, the run only appends the
failed audit record. -/
theorem sync_failfast_config_witness :
    (sync_messages_to_notion envNoClient stAllSynced).1.messages
      = stAllSynced.messages ∧
    (sync_messages_to_notion envNoClient stAllSynced).2 = [] ∧
    (envNoClient.hasClient = false →
      (sync_messages_to_notion envNoClient stAllSynced).1.syncRuns
        = stAllSynced.syncRuns ++ [⟨0, false, some clientErrMsg⟩]) ∧
    (envNoClient.hasClient = true →
      (sync_messages_to_notion envNoClient stAllSynced).1.syncRuns
        = stAllSynced.syncRuns ++ [⟨0, false, some pageIdErrMsg⟩]) ∧
    clientErrMsg ≠ "" ∧ pageIdErrMsg ≠ "" :=
  sync_failfast_config envNoClient stAllSynced (Or.inl rfl)

/-- Committed marks preserve the page-reference invariant: a mark writes
`synced = true` and a `some` page id together. -/
theorem applyMarks_pageref (marks : List (Nat × String))
    (msgs : List Message)
    (hinv : ∀ m ∈ msgs, m.synced = true → m.notion_page_id.isSome = true) :
    ∀ m ∈ applyMarks marks msgs,
      m.synced = true → m.notion_page_id.isSome = true := by
  intro m' hm'
  rw [applyMarks] at hm'
  obtain ⟨m, hm, hfm⟩ := List.mem_map.mp hm'
  cases hl : marks.lookup m.id with
  | none =>
    rw [markRow, hl] at hfm
    subst hfm
    exact hinv m hm
  | some pid =>
    rw [markRow, hl] at hfm
    subst hfm
    intro _
    rfl

/-- C9: the invariant `synced = true → notion_page_id is non-null` is
preserved by every engine run — the only write that sets `synced` also sets
the page reference to the resolved daily page id. -/
theorem sync_preserves_pageref_invariant (env : NotionEnv) (st : DBState)
    (hinv : ∀ m ∈ st.messages,
      m.synced = true → m.notion_page_id.isSome = true) :
    ∀ m ∈ (sync_messages_to_notion env st).1.messages,
      m.synced = true → m.notion_page_id.isSome = true := by
  intro m' hm'
  rw [sync_messages_to_notion] at hm'
  cases hcb : env.hasClient with
  | false =>
    simp only [hcb] at hm'
    exact hinv m' (by simpa using hm')
  | true =>
    simp only [hcb] at hm'
    cases hpb : pyTruthyStr env.parentPageId with
    | false =>
      simp only [hpb] at hm'
      exact hinv m' (by simpa using hm')
    | true =>
      simp only [hpb] at hm'
      cases hrb : env.parentRetrieveOk with
      | false =>
        simp only [hrb] at hm'
        exact hinv m' (by simpa using hm')
      | true =>
        simp only [hrb] at hm'
        cases hem : (sortByTimestamp
            (st.messages.filter (fun m => !m.synced))).isEmpty with
        | true =>
          simp only [hem] at hm'
          exact hinv m' (by simpa using hm')
        | false =>
          simp only [hem] at hm'
          rcases hrun : runGroupsAux env
            (groupByDate (sortByTimestamp
              (st.messages.filter (fun m => !m.synced)))) [] 0 []
            with ⟨marks, total, effs, err⟩
          rw [hrun] at hm'
          cases err with
          | none =>
            simp only at hm'
            exact applyMarks_pageref marks st.messages hinv m' hm'
          | some e =>
            simp only at hm'
            exact applyMarks_pageref marks st.messages hinv m' hm'

/-- Witness for C9: the invariant theorem applied to the synced row the run
leaves in the store. -/
theorem sync_preserves_pageref_invariant_witness :
    syncedMsg.notion_page_id.isSome = true :=
  sync_preserves_pageref_invariant envOk stAllSynced (by decide) syncedMsg
    (by decide) (by decide)

/-! Characterization of the group loop, used by the isolation and counter
claims. -/

/-- Formatting a group of messages whose `text` columns hold strings never
raises. -/
theorem formatGroup_ok (env : NotionEnv) (ms : List Message)
    (htext : ∀ m ∈ ms, m.text.isSome = true) :
    ∃ bs, formatGroup env ms = .ok bs := by
  induction ms with
  | nil => exact ⟨[], rfl⟩
  | cons m rest ih =>
    obtain ⟨t, ht⟩ := Option.isSome_iff_exists.mp
      (htext m (List.mem_cons_self m rest))
    obtain ⟨r, hr⟩ := format_ok env.fileUrl m ht
    obtain ⟨bs, hbs⟩ :=
      ih (fun m' hm' => htext m' (List.mem_cons_of_mem m hm'))
    exact ⟨flattenResult r ++ bs, by rw [formatGroup, hr, hbs]⟩

/-- A fully succeeding group runs through to `MarkSynced` with the resolved
page id, the counter read-increment, and the append and update effects. -/
theorem processGroup_succ (env : NotionEnv) (d : PyDate) (ms : List Message)
    (htext : ∀ m ∈ ms, m.text.isSome = true)
    (hgs : groupSucceeds env d = true) :
    ∃ blocks, processGroup env d ms
      = .ok (pageIdOf env d)
          ((env.pageCount (pageIdOf env d)).getD 0 + ms.length)
          [.appendBlocks (pageIdOf env d) blocks,
           .updatePage (pageIdOf env d)
             ((env.pageCount (pageIdOf env d)).getD 0 + ms.length)
             "Synced"] := by
  rw [groupSucceeds] at hgs
  cases hres : resolvePageId env d with
  | none => rw [hres] at hgs; cases hgs
  | some pid =>
    rw [hres] at hgs
    simp only [Bool.and_eq_true] at hgs
    obtain ⟨bs, hbs⟩ := formatGroup_ok env ms htext
    have hpid : pageIdOf env d = pid := by rw [pageIdOf, hres]; rfl
    refine ⟨bs, ?_⟩
    rw [processGroup, hres, hbs, hpid]
    simp [hgs.1, hgs.2]

/-- A group that fails to resolve, append or update is skipped. -/
theorem processGroup_skip (env : NotionEnv) (d : PyDate) (ms : List Message)
    (htext : ∀ m ∈ ms, m.text.isSome = true)
    (hgs : groupSucceeds env d = false) :
    ∃ es, processGroup env d ms = .skipped es := by
  rw [groupSucceeds] at hgs
  cases hres : resolvePageId env d with
  | none =>
    rw [processGroup, hres]
    exact ⟨[], rfl⟩
  | some pid =>
    rw [hres] at hgs
    simp only [Bool.and_eq_false_iff] at hgs
    obtain ⟨bs, hbs⟩ := formatGroup_ok env ms htext
    rw [processGroup, hres, hbs]
    rcases hgs with hgs | hgs
    · simp only [hgs]
      exact ⟨[], rfl⟩
    · cases hap : env.appendOk pid
      · simp only [hap]
        exact ⟨[], rfl⟩
      · simp only [hap, hgs]
        exact ⟨[.appendBlocks pid bs], rfl⟩

/-- The (message id, page id) marks the loop stages, group by group. -/
def groupMarks (env : NotionEnv) : List (PyDate × List Message) →
    List (Nat × String)
  | [] => []
  | (d, ms) :: rest =>
    (if groupSucceeds env d then ms.map (fun m => (m.id, pageIdOf env d))
     else []) ++ groupMarks env rest

/-- `total_synced` as accumulated by the loop. -/
def groupTotal (env : NotionEnv) : List (PyDate × List Message) → Nat
  | [] => 0
  | (d, ms) :: rest =>
    (if groupSucceeds env d then ms.length else 0) + groupTotal env rest

/-- The loop over groups whose messages all hold text strings: no abort, the
staged marks and the total are those of the succeeding groups, and every
succeeding group emitted its counter update. -/
theorem runGroupsAux_char (env : NotionEnv)
    (groups : List (PyDate × List Message))
    (htext : ∀ p ∈ groups, ∀ m ∈ p.2, m.text.isSome = true) :
    ∀ (marks : List (Nat × String)) (total : Nat)
      (effs : List NotionEffect),
    ∃ effs', runGroupsAux env groups marks total effs
      = (marks ++ groupMarks env groups, total + groupTotal env groups,
         effs ++ effs', none) ∧
      (∀ d ms, (d, ms) ∈ groups → groupSucceeds env d = true →
        NotionEffect.updatePage (pageIdOf env d)
          ((env.pageCount (pageIdOf env d)).getD 0 + ms.length) "Synced"
          ∈ effs') := by
  induction groups with
  | nil =>
    intro marks total effs
    refine ⟨[], ?_, ?_⟩
    · rw [runGroupsAux]
      simp [groupMarks, groupTotal]
    · intro d ms h
      cases h
  | cons p rest ih =>
    obtain ⟨d, ms⟩ := p
    intro marks total effs
    have htexthd : ∀ m ∈ ms, m.text.isSome = true :=
      htext (d, ms) (List.mem_cons_self _ _)
    have htextrest : ∀ p ∈ rest, ∀ m ∈ p.2, m.text.isSome = true :=
      fun p hp => htext p (List.mem_cons_of_mem _ hp)
    cases hgs : groupSucceeds env d with
    | true =>
      obtain ⟨blocks, hpg⟩ := processGroup_succ env d ms htexthd hgs
      obtain ⟨effs', heq, hmem⟩ := ih htextrest
        (marks ++ ms.map (fun m => (m.id, pageIdOf env d)))
        (total + ms.length)
        (effs ++ [.appendBlocks (pageIdOf env d) blocks,
          .updatePage (pageIdOf env d)
            ((env.pageCount (pageIdOf env d)).getD 0 + ms.length) "Synced"])
      refine ⟨[.appendBlocks (pageIdOf env d) blocks,
        .updatePage (pageIdOf env d)
          ((env.pageCount (pageIdOf env d)).getD 0 + ms.length) "Synced"]
        ++ effs', ?_, ?_⟩
      · rw [runGroupsAux, hpg]
        dsimp only
        rw [heq]
        simp [groupMarks, groupTotal, hgs, Nat.add_assoc]
      · intro d' ms' hmem' hgs'
        rcases List.mem_cons.mp hmem' with hhd | htl
        · cases hhd
          simp
        · exact List.mem_append_right _ (hmem d' ms' htl hgs')
    | false =>
      obtain ⟨es, hpg⟩ := processGroup_skip env d ms htexthd hgs
      obtain ⟨effs', heq, hmem⟩ := ih htextrest marks total (effs ++ es)
      refine ⟨es ++ effs', ?_, ?_⟩
      · rw [runGroupsAux, hpg]
        dsimp only
        rw [heq]
        simp [groupMarks, groupTotal, hgs]
      · intro d' ms' hmem' hgs'
        rcases List.mem_cons.mp hmem' with hhd | htl
        · cases hhd
          rw [hgs'] at hgs
          cases hgs
        · exact List.mem_append_right _ (hmem d' ms' htl hgs')

/-! Structure of the date grouping. -/

theorem insertDate_mem (ds : List PyDate) (k d : PyDate) :
    d ∈ insertDate ds k ↔ d ∈ ds ∨ d = k := by
  rw [insertDate]
  split
  · rename_i hk
    constructor
    · exact fun h => Or.inl h
    · rintro (h | h)
      · exact h
      · subst h
        exact hk
  · simp [List.mem_append]

theorem insertDate_nodup (ds : List PyDate) (k : PyDate) (h : ds.Nodup) :
    (insertDate ds k).Nodup := by
  rw [insertDate]
  split
  · exact h
  · rename_i hk
    rw [List.nodup_append]
    refine ⟨h, List.nodup_singleton k, ?_⟩
    intro a ha hb
    rw [List.mem_singleton] at hb
    subst hb
    exact hk ha

theorem datesOfAux_nodup :
    ∀ (l : List Message) (acc : List PyDate), acc.Nodup →
      (datesOfAux acc l).Nodup := by
  intro l
  induction l with
  | nil => intro acc h; exact h
  | cons m rest ih =>
    intro acc h
    exact ih _ (insertDate_nodup _ _ h)

theorem datesOf_nodup (l : List Message) : (datesOf l).Nodup :=
  datesOfAux_nodup l [] List.nodup_nil

theorem datesOfAux_mem :
    ∀ (l : List Message) (acc : List PyDate) (d : PyDate),
      d ∈ datesOfAux acc l ↔ d ∈ acc ∨ ∃ m ∈ l, m.dateKey = d := by
  intro l
  induction l with
  | nil =>
    intro acc d
    simp [datesOfAux]
  | cons m rest ih =>
    intro acc d
    rw [datesOfAux, ih, insertDate_mem]
    constructor
    · rintro ((h | h) | ⟨m', hm', he⟩)
      · exact Or.inl h
      · exact Or.inr ⟨m, List.mem_cons_self _ _, h.symm⟩
      · exact Or.inr ⟨m', List.mem_cons_of_mem _ hm', he⟩
    · rintro (h | ⟨m', hm', he⟩)
      · exact Or.inl (Or.inl h)
      · rcases List.mem_cons.mp hm' with h1 | h1
        · subst h1
          exact Or.inl (Or.inr he.symm)
        · exact Or.inr ⟨m', h1, he⟩

theorem datesOf_mem (l : List Message) (d : PyDate) :
    d ∈ datesOf l ↔ ∃ m ∈ l, m.dateKey = d := by
  rw [datesOf, datesOfAux_mem]
  simp

theorem groupByDate_mem {l : List Message} {d : PyDate} {ms : List Message}
    (h : (d, ms) ∈ groupByDate l) :
    d ∈ datesOf l ∧ ms = l.filter (fun m => m.dateKey == d) := by
  rw [groupByDate] at h
  obtain ⟨d', hd', he⟩ := List.mem_map.mp h
  obtain ⟨he1, he2⟩ := Prod.mk.injEq .. ▸ he
  subst he1
  exact ⟨hd', he2.symm⟩

theorem groupByDate_mem_of (l : List Message) {d : PyDate}
    (hd : d ∈ datesOf l) :
    (d, l.filter (fun m => m.dateKey == d)) ∈ groupByDate l := by
  rw [groupByDate]
  exact List.mem_map_of_mem _ hd

/-! The staged marks, viewed through the grouping. -/

theorem groupMarks_mem_inv (env : NotionEnv) :
    ∀ (groups : List (PyDate × List Message)) {k : Nat} {v : String},
      (k, v) ∈ groupMarks env groups →
      ∃ d ms m, (d, ms) ∈ groups ∧ groupSucceeds env d = true ∧ m ∈ ms ∧
        k = m.id ∧ v = pageIdOf env d := by
  intro groups
  induction groups with
  | nil => intro k v h; cases h
  | cons p rest ih =>
    obtain ⟨d, ms⟩ := p
    intro k v h
    rw [groupMarks] at h
    rcases List.mem_append.mp h with h | h
    · split at h
      · rename_i hgs
        obtain ⟨m, hm, he⟩ := List.mem_map.mp h
        obtain ⟨he1, he2⟩ := Prod.mk.injEq .. ▸ he
        exact ⟨d, ms, m, List.mem_cons_self _ _, hgs, hm, he1.symm,
          he2.symm⟩
      · cases h
    · obtain ⟨d', ms', m, hmem, hgs, hm, hk, hv⟩ := ih h
      exact ⟨d', ms', m, List.mem_cons_of_mem _ hmem, hgs, hm, hk, hv⟩

theorem groupMarks_mem (env : NotionEnv) :
    ∀ (groups : List (PyDate × List Message)) {d : PyDate}
      {ms : List Message} {m : Message},
      (d, ms) ∈ groups → groupSucceeds env d = true → m ∈ ms →
      (m.id, pageIdOf env d) ∈ groupMarks env groups := by
  intro groups
  induction groups with
  | nil => intro d ms m h; cases h
  | cons p rest ih =>
    obtain ⟨d0, ms0⟩ := p
    intro d ms m hmem hgs hm
    rw [groupMarks]
    rcases List.mem_cons.mp hmem with hhd | htl
    · obtain ⟨he1, he2⟩ := Prod.mk.injEq .. ▸ hhd
      subst he1
      subst he2
      apply List.mem_append_left
      rw [if_pos hgs]
      exact List.mem_map_of_mem _ hm
    · exact List.mem_append_right _ (ih htl hgs hm)

theorem lookup_eq_some_of_mem :
    ∀ (marks : List (Nat × String)) (k : Nat) (v : String),
      (k, v) ∈ marks → (∀ v', (k, v') ∈ marks → v' = v) →
      marks.lookup k = some v := by
  intro marks
  induction marks with
  | nil => intro k v h; cases h
  | cons p rest ih =>
    obtain ⟨k', v'⟩ := p
    intro k v hmem huniq
    by_cases hk : k = k'
    · subst hk
      have hv : v' = v := huniq v' (List.mem_cons_self _ _)
      subst hv
      simp [List.lookup]
    · have hbeq : (k == k') = false := beq_eq_false_iff_ne.mpr hk
      rw [List.lookup, hbeq]
      apply ih
      · rcases List.mem_cons.mp hmem with h | h
        · obtain ⟨he1, _⟩ := Prod.mk.injEq .. ▸ h
          exact absurd he1 hk
        · exact h
      · intro v'' h''
        exact huniq v'' (List.mem_cons_of_mem _ h'')

theorem lookup_eq_none_of_not_mem :
    ∀ (marks : List (Nat × String)) (k : Nat),
      (∀ v, ¬((k, v) ∈ marks)) → marks.lookup k = none := by
  intro marks
  induction marks with
  | nil => intro k _; rfl
  | cons p rest ih =>
    obtain ⟨k', v'⟩ := p
    intro k hk
    have hne : k ≠ k' := by
      intro he
      subst he
      exact hk v' (List.mem_cons_self _ _)
    rw [List.lookup, beq_eq_false_iff_ne.mpr hne]
    exact ih k (fun v hv => hk v (List.mem_cons_of_mem _ hv))

/-! Counting the messages of the successful groups. -/

theorem length_filter_split (l : List Message) (p q : Message → Bool) :
    (l.filter p).length
      = (l.filter (fun m => p m && q m)).length
        + (l.filter (fun m => p m && !q m)).length := by
  induction l with
  | nil => rfl
  | cons a as ih =>
    by_cases hp : p a = true
    · by_cases hq : q a = true <;>
        simp [List.filter_cons, hp, hq, ih] <;> omega
    · rw [Bool.not_eq_true] at hp
      simp [List.filter_cons, hp, ih]

theorem groupTotal_eq (env : NotionEnv) :
    ∀ (ds : List PyDate) (l : List Message), ds.Nodup →
      (∀ m ∈ l, m.dateKey ∈ ds) →
      groupTotal env
        (ds.map (fun d => (d, l.filter (fun m => m.dateKey == d))))
        = (l.filter (fun m => groupSucceeds env m.dateKey)).length := by
  intro ds
  induction ds with
  | nil =>
    intro l _ hcov
    have hl : l.filter (fun m => groupSucceeds env m.dateKey) = [] := by
      rw [List.filter_eq_nil_iff]
      intro m hm
      cases hcov m hm
    rw [hl]
    rfl
  | cons d rest ih =>
    intro l hnd hcov
    have hdrest : ¬(d ∈ rest) := (List.nodup_cons.mp hnd).1
    have hndrest : rest.Nodup := (List.nodup_cons.mp hnd).2
    set l' := l.filter (fun m => !(m.dateKey == d)) with hl'
    have hmapeq : rest.map (fun d' => (d', l.filter (fun m => m.dateKey == d')))
        = rest.map (fun d' => (d', l'.filter (fun m => m.dateKey == d'))) := by
      apply List.map_congr_left
      intro d' hd'
      have hdne : d' ≠ d := fun he => hdrest (he ▸ hd')
      have : l'.filter (fun m => m.dateKey == d')
          = l.filter (fun m => m.dateKey == d') := by
        rw [hl', List.filter_filter]
        apply List.filter_congr
        intro m _
        by_cases hmd : m.dateKey = d'
        · simp [hmd, hdne]
        · simp [hmd]
      rw [this]
    have hcov' : ∀ m ∈ l', m.dateKey ∈ rest := by
      intro m hm
      obtain ⟨hml, hmd⟩ := List.mem_filter.mp hm
      have := hcov m hml
      rcases List.mem_cons.mp this with h | h
      · simp [h] at hmd
      · exact h
    have hsplit := length_filter_split l
      (fun m => groupSucceeds env m.dateKey) (fun m => m.dateKey == d)
    have hfirst : (l.filter (fun m =>
        groupSucceeds env m.dateKey && (m.dateKey == d))).length
        = if groupSucceeds env d then (l.filter (fun m => m.dateKey == d)).length
          else 0 := by
      cases hgs : groupSucceeds env d with
      | true =>
        rw [if_pos rfl]
        congr 1
        apply List.filter_congr
        intro m _
        by_cases hmd : m.dateKey = d
        · simp [hmd, hgs]
        · simp [hmd]
      | false =>
        rw [if_neg (by simp)]
        have : l.filter (fun m =>
            groupSucceeds env m.dateKey && (m.dateKey == d)) = [] := by
          rw [List.filter_eq_nil_iff]
          intro m _
          by_cases hmd : m.dateKey = d
          · simp [hmd, hgs]
          · simp [hmd]
        rw [this]
        rfl
    have hsecond : (l.filter (fun m =>
        groupSucceeds env m.dateKey && !(m.dateKey == d))).length
        = (l'.filter (fun m => groupSucceeds env m.dateKey)).length := by
      rw [hl', List.filter_filter]
    rw [List.map_cons, groupTotal, hmapeq, ih l' hndrest hcov',
      hsplit, hfirst, hsecond]

theorem mem_unsynced_iff (st : DBState) (m : Message) :
    m ∈ sortByTimestamp (st.messages.filter (fun x => !x.synced))
      ↔ m ∈ st.messages ∧ m.synced = false := by
  rw [sortByTimestamp, (List.perm_insertionSort _ _).mem_iff,
    List.mem_filter]
  simp

theorem unsynced_isEmpty_false (st : DBState)
    (hne : ∃ m ∈ st.messages, m.synced = false) :
    (sortByTimestamp (st.messages.filter (fun x => !x.synced))).isEmpty
      = false := by
  obtain ⟨m, hm, hs⟩ := hne
  have hmem : m ∈ sortByTimestamp (st.messages.filter (fun x => !x.synced)) :=
    (mem_unsynced_iff st m).mpr ⟨hm, hs⟩
  cases he : (sortByTimestamp
      (st.messages.filter (fun x => !x.synced))).isEmpty with
  | false => rfl
  | true =>
    rw [List.isEmpty_iff] at he
    rw [he] at hmem
    cases hmem

/-- One run in the main branch: valid configuration, at least one unsynced
row, every unsynced row holding a text string.  The run commits the marks of
the succeeding groups, reports success with the count of their messages, and
emits each succeeding group's counter update. -/
theorem sync_run_char (env : NotionEnv) (st : DBState)
    (hc : env.hasClient = true) (hp : pyTruthyStr env.parentPageId = true)
    (hr : env.parentRetrieveOk = true)
    (htext : ∀ m ∈ st.messages, m.synced = false → m.text.isSome = true)
    (hne : ∃ m ∈ st.messages, m.synced = false) :
    ∃ effs',
      (sync_messages_to_notion env st).1.messages
        = applyMarks (groupMarks env (groupByDate (sortByTimestamp
            (st.messages.filter (fun x => !x.synced))))) st.messages ∧
      (sync_messages_to_notion env st).1.syncRuns
        = st.syncRuns ++
          [⟨((st.messages.filter (fun x => !x.synced)).filter
              (fun m => groupSucceeds env m.dateKey)).length, true, none⟩] ∧
      (sync_messages_to_notion env st).2 = effs' ∧
      (∀ d ms, (d, ms) ∈ groupByDate (sortByTimestamp
          (st.messages.filter (fun x => !x.synced))) →
        groupSucceeds env d = true →
        NotionEffect.updatePage (pageIdOf env d)
          ((env.pageCount (pageIdOf env d)).getD 0 + ms.length) "Synced"
          ∈ effs') := by
  set unsynced := sortByTimestamp (st.messages.filter (fun x => !x.synced))
    with hunsynced
  have hperm : List.Perm unsynced (st.messages.filter (fun x => !x.synced)) :=
    List.perm_insertionSort _ _
  have hemp : unsynced.isEmpty = false := unsynced_isEmpty_false st hne
  have htextg : ∀ p ∈ groupByDate unsynced, ∀ m ∈ p.2,
      m.text.isSome = true := by
    rintro ⟨d, ms⟩ hg m hm
    obtain ⟨_, hmsdef⟩ := groupByDate_mem hg
    rw [hmsdef] at hm
    obtain ⟨hmu, _⟩ := List.mem_filter.mp hm
    obtain ⟨hmst, hmsy⟩ := (mem_unsynced_iff st m).mp hmu
    exact htext m hmst hmsy
  obtain ⟨effs', heq, hmem⟩ :=
    runGroupsAux_char env (groupByDate unsynced) htextg [] 0 []
  have htot : groupTotal env (groupByDate unsynced)
      = ((st.messages.filter (fun x => !x.synced)).filter
          (fun m => groupSucceeds env m.dateKey)).length := by
    rw [groupByDate]
    rw [groupTotal_eq env (datesOf unsynced) unsynced (datesOf_nodup _)
      (fun m hm => (datesOf_mem _ _).mpr ⟨m, hm, rfl⟩)]
    exact (hperm.filter _).length_eq
  have hrun : sync_messages_to_notion env st
      = ({ messages := applyMarks (groupMarks env (groupByDate unsynced))
            st.messages,
           syncRuns := st.syncRuns ++
            [⟨groupTotal env (groupByDate unsynced), true, none⟩] },
         effs') := by
    rw [sync_messages_to_notion]
    simp only [hc, hp, hr, Bool.not_true, Bool.false_eq_true, if_false,
      ← hunsynced, hemp]
    rw [heq]
    simp
  refine ⟨effs', ?_, ?_, ?_, hmem⟩
  · rw [hrun]
  · rw [hrun]
    simp only
    rw [htot]
  · rw [hrun]

/-- A committed run leaves every message of a failing group untouched. -/
theorem sync_skips_failed_group (env : NotionEnv) (st : DBState)
    (hc : env.hasClient = true) (hp : pyTruthyStr env.parentPageId = true)
    (hr : env.parentRetrieveOk = true)
    (hids : (st.messages.map (fun m => m.id)).Nodup)
    (htext : ∀ m ∈ st.messages, m.synced = false → m.text.isSome = true)
    (m : Message) (hm : m ∈ st.messages) (hms : m.synced = false)
    (hfail : groupSucceeds env m.dateKey = false) :
    m ∈ (sync_messages_to_notion env st).1.messages := by
  have hne : ∃ m' ∈ st.messages, m'.synced = false := ⟨m, hm, hms⟩
  obtain ⟨effs', hmsg, _, _, _⟩ := sync_run_char env st hc hp hr htext hne
  set unsynced := sortByTimestamp (st.messages.filter (fun x => !x.synced))
    with hunsynced
  set gmarks := groupMarks env (groupByDate unsynced) with hgmarks
  have hlook : gmarks.lookup m.id = none := by
    apply lookup_eq_none_of_not_mem
    intro v hv
    obtain ⟨d, ms, m', hgmem, hgs, hm', hk, hv'⟩ :=
      groupMarks_mem_inv env _ hv
    obtain ⟨_, hmsdef⟩ := groupByDate_mem hgmem
    rw [hmsdef] at hm'
    obtain ⟨hm'u, hm'd⟩ := List.mem_filter.mp hm'
    obtain ⟨hm'st, _⟩ := (mem_unsynced_iff st m').mp hm'u
    have hdk : m'.dateKey = d := by simpa using hm'd
    have hmm : m' = m := List.inj_on_of_nodup_map hids hm'st hm hk.symm
    rw [hmm] at hdk
    rw [← hdk] at hgs
    rw [hgs] at hfail
    cases hfail
  rw [hmsg]
  have hmap := List.mem_map_of_mem (markRow gmarks) hm
  rw [show markRow gmarks m = m from by rw [markRow, hlook]] at hmap
  exact hmap

/-- A committed run marks every message of a succeeding group as synced,
with the resolved daily page id as its page reference. -/
theorem sync_marks_synced_group (env : NotionEnv) (st : DBState)
    (hc : env.hasClient = true) (hp : pyTruthyStr env.parentPageId = true)
    (hr : env.parentRetrieveOk = true)
    (hids : (st.messages.map (fun m => m.id)).Nodup)
    (htext : ∀ m ∈ st.messages, m.synced = false → m.text.isSome = true)
    (m : Message) (hm : m ∈ st.messages) (hms : m.synced = false)
    (hsucc : groupSucceeds env m.dateKey = true) :
    { m with
      synced := true
      notion_page_id := some (pageIdOf env m.dateKey) }
      ∈ (sync_messages_to_notion env st).1.messages := by
  have hne : ∃ m' ∈ st.messages, m'.synced = false := ⟨m, hm, hms⟩
  obtain ⟨effs', hmsg, _, _, _⟩ := sync_run_char env st hc hp hr htext hne
  set unsynced := sortByTimestamp (st.messages.filter (fun x => !x.synced))
    with hunsynced
  set gmarks := groupMarks env (groupByDate unsynced) with hgmarks
  have hmu : m ∈ unsynced := (mem_unsynced_iff st m).mpr ⟨hm, hms⟩
  have hd : m.dateKey ∈ datesOf unsynced :=
    (datesOf_mem _ _).mpr ⟨m, hmu, rfl⟩
  have hbucket := groupByDate_mem_of unsynced hd
  have hmmem : m ∈ unsynced.filter (fun x => x.dateKey == m.dateKey) :=
    List.mem_filter.mpr ⟨hmu, by simp⟩
  have hmark : (m.id, pageIdOf env m.dateKey) ∈ gmarks :=
    groupMarks_mem env _ hbucket hsucc hmmem
  have huniq : ∀ v', (m.id, v') ∈ gmarks → v' = pageIdOf env m.dateKey := by
    intro v' hv'
    obtain ⟨d, ms, m', hgmem, hgs, hm', hk, hv''⟩ :=
      groupMarks_mem_inv env _ hv'
    obtain ⟨_, hmsdef⟩ := groupByDate_mem hgmem
    rw [hmsdef] at hm'
    obtain ⟨hm'u, hm'd⟩ := List.mem_filter.mp hm'
    obtain ⟨hm'st, _⟩ := (mem_unsynced_iff st m').mp hm'u
    have hdk : m'.dateKey = d := by simpa using hm'd
    have hmm : m' = m := List.inj_on_of_nodup_map hids hm'st hm hk.symm
    rw [hmm] at hdk
    rw [hv'', ← hdk]
  have hlook := lookup_eq_some_of_mem gmarks m.id _ hmark huniq
  rw [hmsg]
  have hmap := List.mem_map_of_mem (markRow gmarks) hm
  rw [show markRow gmarks m
      = { m with
          synced := true
          notion_page_id := some (pageIdOf env m.dateKey) } from
    by rw [markRow, hlook]] at hmap
  exact hmap

/-- C8: with a valid configuration and unsynced messages across groups, a
group that fails (resolution, append or update) is isolated — its messages
stay untouched with `synced = false`, the other groups still sync, and the
run's audit record reports `success = true` with the count of the messages
of the succeeding groups. -/
theorem sync_group_failure_isolated (env : NotionEnv) (st : DBState)
    (hc : env.hasClient = true) (hp : pyTruthyStr env.parentPageId = true)
    (hr : env.parentRetrieveOk = true)
    (hids : (st.messages.map (fun m => m.id)).Nodup)
    (htext : ∀ m ∈ st.messages, m.synced = false → m.text.isSome = true)
    (dbad : PyDate)
    (hbadmem : ∃ m ∈ st.messages, m.synced = false ∧ m.dateKey = dbad)
    (_hbad : groupSucceeds env dbad = false) :
    (sync_messages_to_notion env st).1.syncRuns
      = st.syncRuns ++
        [⟨((st.messages.filter (fun x => !x.synced)).filter
            (fun m => groupSucceeds env m.dateKey)).length, true, none⟩] ∧
    (∀ m ∈ st.messages, m.synced = false →
      groupSucceeds env m.dateKey = false →
      m ∈ (sync_messages_to_notion env st).1.messages) ∧
    (∀ m ∈ st.messages, m.synced = false →
      groupSucceeds env m.dateKey = true →
      { m with
        synced := true
        notion_page_id := some (pageIdOf env m.dateKey) }
        ∈ (sync_messages_to_notion env st).1.messages) := by
  obtain ⟨m₀, hm₀, hm₀s, _⟩ := hbadmem
  have hne : ∃ m ∈ st.messages, m.synced = false := ⟨m₀, hm₀, hm₀s⟩
  obtain ⟨effs', _, hruns, _, _⟩ := sync_run_char env st hc hp hr htext hne
  refine ⟨hruns, ?_, ?_⟩
  · intro m hm hms hfail
    exact sync_skips_failed_group env st hc hp hr hids htext m hm hms hfail
  · intro m hm hms hsucc
    exact sync_marks_synced_group env st hc hp hr hids htext m hm hms hsucc

/-- An environment in which May hierarchy creation fails while everything
else succeeds. -/
def envMayFails : NotionEnv :=
  { envOk with
    createMonthlyDb := fun _ mo => if mo = 5 then none else some "mdb" }

/-- Two unsynced messages on different dates (May 2 and June 5). -/
def stTwoDates : DBState :=
  ⟨[{ id := 1, text := some "may text", timestamp := ⟨⟨2024, 5, 2⟩, 9, 0, 0⟩,
      username := some "alice", first_name := none, last_name := none,
      media_type := none, media_stored_path := none, media_filename := none,
      synced := false, notion_page_id := none },
    { id := 2, text := some "june text", timestamp := ⟨⟨2024, 6, 5⟩, 10, 0, 0⟩,
      username := some "bob", first_name := none, last_name := none,
      media_type := none, media_stored_path := none, media_filename := none,
      synced := false, notion_page_id := none }], []⟩

/-- Witness for C8: the May group fails to resolve, the June group syncs,
and the run still reports success with the June count. -/
theorem sync_group_failure_isolated_witness :
    (sync_messages_to_notion envMayFails stTwoDates).1.syncRuns
      = stTwoDates.syncRuns ++
        [⟨((stTwoDates.messages.filter (fun x => !x.synced)).filter
            (fun m => groupSucceeds envMayFails m.dateKey)).length,
          true, none⟩] ∧
    (∀ m ∈ stTwoDates.messages, m.synced = false →
      groupSucceeds envMayFails m.dateKey = false →
      m ∈ (sync_messages_to_notion envMayFails stTwoDates).1.messages) ∧
    (∀ m ∈ stTwoDates.messages, m.synced = false →
      groupSucceeds envMayFails m.dateKey = true →
      { m with
        synced := true
        notion_page_id := some (pageIdOf envMayFails m.dateKey) }
        ∈ (sync_messages_to_notion envMayFails stTwoDates).1.messages) :=
  sync_group_failure_isolated envMayFails stTwoDates rfl (by decide) rfl
    (by decide) (by decide) ⟨2024, 5, 2⟩ (by decide) (by decide)

/-- C10 (implicit): after a successful append, the counter written back is
the retrieved `Messages` number plus the group size, and a failed or empty
counter read silently falls back to 0 — the group size alone is written —
while the group is still marked synced. -/
theorem sync_counter_fallback (env : NotionEnv) (st : DBState)
    (hc : env.hasClient = true) (hp : pyTruthyStr env.parentPageId = true)
    (hr : env.parentRetrieveOk = true)
    (hids : (st.messages.map (fun m => m.id)).Nodup)
    (htext : ∀ m ∈ st.messages, m.synced = false → m.text.isSome = true)
    (m₀ : Message) (hm₀ : m₀ ∈ st.messages) (hm₀s : m₀.synced = false)
    (pid : String) (hres : resolvePageId env m₀.dateKey = some pid)
    (happ : env.appendOk pid = true) (hupd : env.updateOk pid = true) :
    NotionEffect.updatePage pid ((env.pageCount pid).getD 0 +
        (((st.messages.filter (fun x => !x.synced)).filter
          (fun m => m.dateKey == m₀.dateKey)).length : Int)) "Synced"
      ∈ (sync_messages_to_notion env st).2 ∧
    (env.pageCount pid = none →
      NotionEffect.updatePage pid
        (((st.messages.filter (fun x => !x.synced)).filter
          (fun m => m.dateKey == m₀.dateKey)).length : Int) "Synced"
        ∈ (sync_messages_to_notion env st).2) ∧
    { m₀ with synced := true, notion_page_id := some pid }
      ∈ (sync_messages_to_notion env st).1.messages := by
  have hsucc : groupSucceeds env m₀.dateKey = true := by
    simp [groupSucceeds, hres, happ, hupd]
  have hpid : pageIdOf env m₀.dateKey = pid := by
    rw [pageIdOf, hres]
    rfl
  have hne : ∃ m ∈ st.messages, m.synced = false := ⟨m₀, hm₀, hm₀s⟩
  obtain ⟨effs', hmsg, _, heffs, hupdmem⟩ :=
    sync_run_char env st hc hp hr htext hne
  set unsynced := sortByTimestamp (st.messages.filter (fun x => !x.synced))
    with hunsynced
  have hperm : List.Perm unsynced (st.messages.filter (fun x => !x.synced)) :=
    List.perm_insertionSort _ _
  have hmu : m₀ ∈ unsynced := (mem_unsynced_iff st m₀).mpr ⟨hm₀, hm₀s⟩
  have hd : m₀.dateKey ∈ datesOf unsynced :=
    (datesOf_mem _ _).mpr ⟨m₀, hmu, rfl⟩
  have hbucket := groupByDate_mem_of unsynced hd
  have hlen : (unsynced.filter (fun x => x.dateKey == m₀.dateKey)).length
      = ((st.messages.filter (fun x => !x.synced)).filter
          (fun m => m.dateKey == m₀.dateKey)).length :=
    (hperm.filter _).length_eq
  have hfirst : NotionEffect.updatePage pid ((env.pageCount pid).getD 0 +
      (((st.messages.filter (fun x => !x.synced)).filter
        (fun m => m.dateKey == m₀.dateKey)).length : Int)) "Synced"
      ∈ (sync_messages_to_notion env st).2 := by
    have hm := hupdmem m₀.dateKey
      (unsynced.filter (fun x => x.dateKey == m₀.dateKey)) hbucket hsucc
    rw [hpid, hlen] at hm
    rw [heffs]
    exact hm
  refine ⟨hfirst, ?_, ?_⟩
  · intro hpc
    rw [hpc] at hfirst
    simpa using hfirst
  · have h3 := sync_marks_synced_group env st hc hp hr hids htext
      m₀ hm₀ hm₀s hsucc
    rw [hpid] at h3
    exact h3

/-- A single unsynced message on June 5. -/
def stOneUnsynced : DBState :=
  ⟨[{ id := 3, text := some "solo", timestamp := ⟨⟨2024, 6, 5⟩, 11, 0, 0⟩,
      username := some "carol", first_name := none, last_name := none,
      media_type := none, media_stored_path := none, media_filename := none,
      synced := false, notion_page_id := none }], []⟩

/-- Witness for C10: with the counter read yielding no number, the written
counter equals the group size (1) and the message is marked synced. -/
theorem sync_counter_fallback_witness :
    NotionEffect.updatePage "page" ((envOk.pageCount "page").getD 0 +
        (((stOneUnsynced.messages.filter (fun x => !x.synced)).filter
          (fun m => m.dateKey == ⟨2024, 6, 5⟩)).length : Int)) "Synced"
      ∈ (sync_messages_to_notion envOk stOneUnsynced).2 ∧
    (envOk.pageCount "page" = none →
      NotionEffect.updatePage "page"
        (((stOneUnsynced.messages.filter (fun x => !x.synced)).filter
          (fun m => m.dateKey == ⟨2024, 6, 5⟩)).length : Int) "Synced"
        ∈ (sync_messages_to_notion envOk stOneUnsynced).2) :=
  have h := sync_counter_fallback envOk stOneUnsynced rfl (by decide) rfl
    (by decide) (by decide)
    { id := 3, text := some "solo", timestamp := ⟨⟨2024, 6, 5⟩, 11, 0, 0⟩,
      username := some "carol", first_name := none, last_name := none,
      media_type := none, media_stored_path := none, media_filename := none,
      synced := false, notion_page_id := none }
    (by decide) rfl "page" (by decide) rfl rfl
  ⟨h.1, h.2.1⟩

end TGNotion
